import Mathlib

/-!
Verification of the Satyam Mall inventory system against its specification.

The development shallowly embeds the two logic-bearing modules:

* the issue/receive form (`IssueReceiveForm.tsx`): per-item validation,
  the optional file-upload pre-step, the sequential submission loop with
  progress reporting, and the post-submission state updates;
* the reports module: transaction filtering with date bounds, summary
  statistics, the per-location (floor) aggregation, and the CSV row
  projection.

JavaScript numbers are modelled as exact rationals (`ℚ`), timestamps as
natural numbers (milliseconds since the epoch), and the external
collaborators (`submitTransaction`, `uploadFileToDrive`) as oracles passed
in as parameters.  Stateful React updates are modelled by explicit state
passing; the observable side effects of one `handleSubmit` run are
collected into an event trace.
-/

namespace SatyamMall

/-- The two transaction kinds (`TransactionType` in `types.ts`). -/
inductive TxType where
  | issue
  | receive
  deriving DecidableEq, Repr

/-- One row of the read-only inventory snapshot:
`InventoryItem {name, quantity, unit}`. -/
structure InventoryItem where
  name : String
  quantity : ℚ
  unit : String
  deriving DecidableEq, Repr

/-- One editable line item of the form (`ItemEntry` in
`IssueReceiveForm.tsx`): the quantity is kept as the raw input string,
exactly as in the component state. -/
structure ItemEntry where
  id : Nat
  itemName : String
  quantity : String
  unit : String
  deriving DecidableEq, Repr

/-- The common form fields shared by all line items. -/
structure CommonData where
  location : String
  personName : String
  notes : String
  deriving DecidableEq, Repr

/-- The request sent to `submitTransaction` for one item.  The quantity is
`Number(item.quantity)`; `none` models `NaN` (a non-numeric string). -/
structure TxRequest where
  rtype : TxType
  itemName : String
  quantity : Option ℚ
  unit : String
  location : String
  personName : String
  notes : String
  fileUrl : String
  deriving DecidableEq, Repr

/-- Digit-string parsing: `some n` when the character list is a nonempty
list of decimal digits. -/
def parseDigits (cs : List Char) : Option Nat :=
  if cs.isEmpty then none
  else
    cs.foldl
      (fun acc c =>
        match acc with
        | none => none
        | some n => if c.isDigit then some (n * 10 + (c.toNat - 48)) else none)
      (some 0)

/-- The unsigned decimal value `intPart.fracPart` as a rational, built
with `mkRat` so that it evaluates inside the kernel:
`(n * 10^k + f) / 10^k` where `k` is the number of fraction digits. -/
def decimalValue (n f k : Nat) : ℚ :=
  mkRat (n * 10 ^ k + f) (10 ^ k)

/-- The JavaScript `Number(string)` coercion on the decimal strings the
form can produce: an optional sign, an integer part and/or a fractional
part.  `none` models `NaN`; `Number("") = 0` as in JavaScript. -/
def toNumber (s : String) : Option ℚ :=
  if s = "" then some 0
  else
    let cs := s.toList
    let neg : Bool := cs.head? = some '-'
    let body := if cs.head? = some '-' ∨ cs.head? = some '+' then cs.tail else cs
    let intPart := body.takeWhile (· ≠ '.')
    let rest := body.dropWhile (· ≠ '.')
    let fracDigits : List Char :=
      match rest with
      | [] => []
      | _ :: frac => frac
    let value : Option ℚ :=
      match rest, parseDigits intPart, parseDigits fracDigits with
      | [], some n, _ => some (decimalValue n 0 0)
      | _ :: frac, some n, _ =>
        if frac.isEmpty then some (decimalValue n 0 0)
        else
          match parseDigits frac with
          | some f => some (decimalValue n f frac.length)
          | none => none
      | _ :: frac, none, some f =>
        if intPart.isEmpty then some (decimalValue 0 f frac.length)
        else none
      | _, _, _ => none
    match value with
    | some q => some (if neg then -q else q)
    | none => none

/-- Rational addition implemented with `mkRat` so that it evaluates
inside the kernel; `qadd_eq_add` below proves it is exactly `+` on `ℚ`. -/
def qadd (a b : ℚ) : ℚ :=
  mkRat (a.num * b.den + b.num * a.den) (a.den * b.den)

/-- `reduce((sum, t) => sum + t, 0)`: left fold of kernel-computable
addition over a list of rationals; `sumQ_eq_sum` below proves it is the
list sum. -/
def sumQ (l : List ℚ) : ℚ :=
  l.foldl qadd 0

/-- The validation errors the form surfaces, one per `setMessage` site of
the validation loop in `handleSubmit`. -/
inductive VError where
  | missingField
  | unknownItem (name : String)
  | insufficientStock (name : String) (available : ℚ) (unit : String)
  deriving DecidableEq, Repr

/-- `inventory.find(i => i.name === item.itemName)`. -/
def findInv (inventory : List InventoryItem) (n : String) : Option InventoryItem :=
  inventory.find? (fun i => i.name = n)

/-- The per-item validation of `handleSubmit` (lines 183-201): missing
fields first, then - for issue operations - existence and stock
sufficiency.  A `NaN` quantity passes the stock check because every
JavaScript comparison with `NaN` is false. -/
def checkItem (isIssue : Bool) (inventory : List InventoryItem) (it : ItemEntry) :
    Option VError :=
  if it.itemName = "" ∨ it.quantity = "" ∨ it.unit = "" then some .missingField
  else if isIssue then
    match findInv inventory it.itemName with
    | none => some (.unknownItem it.itemName)
    | some inv =>
      match toNumber it.quantity with
      | some q =>
        if inv.quantity < q then some (.insufficientStock it.itemName inv.quantity inv.unit)
        else none
      | none => none
  else none

/-- The validation loop: returns the first failing item's error
(short-circuiting `for ... return`). -/
def validateItems (isIssue : Bool) (inventory : List InventoryItem) :
    List ItemEntry → Option VError
  | [] => none
  | it :: rest =>
    match checkItem isIssue inventory it with
    | some e => some e
    | none => validateItems isIssue inventory rest

/-- The user-facing messages of `handleSubmit`, one constructor per
`setMessage` site, carrying the data interpolated into the text. -/
inductive Msg where
  | missingField
  | invalidItem (name : String)
  | insufficientStock (name : String) (available : ℚ) (unit : String)
  | uploadFailed
  | allRecorded (count : Nat)
  | partialFailure (saved : Nat) (failed : List String)
  | totalFailure
  deriving DecidableEq, Repr

/-- The message produced by a validation error. -/
def msgOfError : VError → Msg
  | .missingField => .missingField
  | .unknownItem n => .invalidItem n
  | .insufficientStock n a u => .insufficientStock n a u

/-- Observable side effects of one `handleSubmit` run, in program order:
`setProgress` calls with a value, `setProgress(null)`, the
`uploadFileToDrive` call, and each `submitTransaction` call with its
boolean outcome. -/
inductive Event where
  | progress (current total : Nat)
  | progressClear
  | uploadCall (file nameHint : String)
  | submitCall (req : TxRequest) (ok : Bool)
  deriving DecidableEq, Repr

/-- The component state touched by `handleSubmit`: the editable item
list, the common fields, and the selected file (modelled by its name). -/
structure FormState where
  items : List ItemEntry
  commonData : CommonData
  selectedFile : Option String
  deriving DecidableEq, Repr

/-- Result of one `handleSubmit` run: the post-state, the event trace,
the messages set (in order, nulls omitted), and whether `onSuccess`
fired. -/
structure SubmitResult where
  state : FormState
  events : List Event
  messages : List Msg
  onSuccessFired : Bool
  deriving DecidableEq, Repr

/-- The `TransactionRequest` built for the item at position `i`
(lines 226-235): the uploaded file URL is attached only when `i = 0`. -/
def mkRequest (rtype : TxType) (common : CommonData) (uploadedFileUrl : String)
    (i : Nat) (it : ItemEntry) : TxRequest :=
  { rtype := rtype
    itemName := it.itemName
    quantity := toNumber it.quantity
    unit := it.unit
    location := common.location
    personName := common.personName
    notes := common.notes
    fileUrl := if i = 0 then uploadedFileUrl else "" }

/-- The submission loop (lines 222-242), starting at position `i`:
returns the emitted events, the success count, and the names of the
failed items in order.  `submitOk k` is the outcome oracle for the `k`-th
`submitTransaction` call. -/
def submitLoop (submitOk : Nat → Bool) (mk : Nat → ItemEntry → TxRequest)
    (total : Nat) : Nat → List ItemEntry → List Event × Nat × List String
  | _, [] => ([], 0, [])
  | i, it :: rest =>
    let ok := submitOk i
    let r := submitLoop submitOk mk total (i + 1) rest
    (Event.progress (i + 1) total :: Event.submitCall (mk i it) ok :: r.1,
      (if ok then r.2.1 + 1 else r.2.1),
      (if ok then r.2.2 else it.itemName :: r.2.2))

/-- A fresh blank line item (`{ id: nextId++, itemName: '', quantity: '',
unit: '' }`). -/
def blankEntry (id : Nat) : ItemEntry :=
  { id := id, itemName := "", quantity := "", unit := "" }

/-- The optional file-upload pre-step (lines 204-215): only receive
batches with a selected file call `uploadFileToDrive`, once, with the
joined item names as name hint.  Returns the emitted events, the warning
messages, and the URL attached to the first item (`''` unless the upload
succeeded with a URL). -/
def uploadPhase (rtype : TxType) (st : FormState) (uploadResult : Bool × String) :
    List Event × List Msg × String :=
  match rtype, st.selectedFile with
  | TxType.receive, some f =>
    let nameHint := String.intercalate "_" (st.items.map (·.itemName))
    if uploadResult.1 ∧ uploadResult.2 ≠ "" then
      ([Event.uploadCall f nameHint], [], uploadResult.2)
    else
      ([Event.uploadCall f nameHint], [Msg.uploadFailed], "")
  | _, _ => ([], [], "")

/-- The post-validation part of `handleSubmit` (lines 204-260): upload
phase, submission loop, then the outcome classification of lines
246-259. -/
def submitPhase (rtype : TxType) (st : FormState) (uploadResult : Bool × String)
    (submitOk : Nat → Bool) (newBlankId : Nat) : SubmitResult :=
  let upl := uploadPhase rtype st uploadResult
  let uploadedFileUrl := upl.2.2
  let total := st.items.length
  let loop := submitLoop submitOk (mkRequest rtype st.commonData uploadedFileUrl) total 0 st.items
  let successCount := loop.2.1
  let failedItems := loop.2.2
  let events := upl.1 ++ Event.progress 0 total :: loop.1 ++ [Event.progressClear]
  if failedItems = [] then
    { state :=
        { items := [blankEntry newBlankId]
          commonData := { location := "", personName := "", notes := "" }
          selectedFile := none }
      events := events
      messages := upl.2.1 ++ [Msg.allRecorded successCount]
      onSuccessFired := true }
  else if 0 < successCount then
    { state := { st with items := st.items.filter (fun it => it.itemName ∈ failedItems) }
      events := events
      messages := upl.2.1 ++ [Msg.partialFailure successCount failedItems]
      onSuccessFired := true }
  else
    { state := st
      events := events
      messages := upl.2.1 ++ [Msg.totalFailure]
      onSuccessFired := false }

/-- The whole `handleSubmit` handler as a pure function of the component
state and the collaborator oracles.  `uploadResult` is the
`uploadFileToDrive` response `(success, fileUrl)`; `newBlankId` is the
`nextId` value used when the list is reset.  Validation failure aborts
before any side effect. -/
def handleSubmit (rtype : TxType) (inventory : List InventoryItem) (st : FormState)
    (uploadResult : Bool × String) (submitOk : Nat → Bool) (newBlankId : Nat) :
    SubmitResult :=
  let isIssue : Bool := rtype = TxType.issue
  match validateItems isIssue inventory st.items with
  | some e =>
    { state := st, events := [], messages := [msgOfError e], onSuccessFired := false }
  | none => submitPhase rtype st uploadResult submitOk newBlankId

/-- The submission events of a trace, in order. -/
def submitsOf (evs : List Event) : List (TxRequest × Bool) :=
  evs.filterMap fun e =>
    match e with
    | .submitCall r ok => some (r, ok)
    | _ => none

/-- Whether an event is a `submitTransaction` call. -/
def isSubmit : Event → Bool
  | .submitCall _ _ => true
  | _ => false

/-- Whether an event is an `uploadFileToDrive` call. -/
def isUpload : Event → Bool
  | .uploadCall _ _ => true
  | _ => false

/-- The `{current, total}` values of the progress events of a trace, in
emission order. -/
def progressSignals (evs : List Event) : List (Nat × Nat) :=
  evs.filterMap fun e =>
    match e with
    | .progress c t => some (c, t)
    | _ => none

/-- The names of the items whose submissions fail under the oracle `ok`,
starting at call index `i`, in input order. -/
def failedNames (ok : Nat → Bool) (i : Nat) (l : List ItemEntry) : List String :=
  ((List.enumFrom i l).filter (fun p => !ok p.1)).map (fun p => p.2.itemName)

/-- The initial editable item list (line 114): one blank entry. -/
def initialItems (id : Nat) : List ItemEntry :=
  [blankEntry id]

/-- `removeItem` (lines 151-154): refuses when at most one entry remains,
otherwise drops the entry with the given id. -/
def removeItem (items : List ItemEntry) (id : Nat) : List ItemEntry :=
  if items.length ≤ 1 then items
  else items.filter (fun it => it.id ≠ id)

/-- A historical transaction record from the external log.  `date` is the
timestamp in milliseconds since the epoch. -/
structure Transaction where
  id : Nat
  date : Nat
  ttype : TxType
  itemName : String
  quantity : ℚ
  unit : String
  location : String
  personName : String
  notes : String
  fileUrl : String
  deriving DecidableEq, Repr

/-- Milliseconds in one calendar day. -/
def dayMs : Nat := 86400000

/-- The report filter parameters; `none` is the `'All'` / empty choice.
Dates are calendar-day indices (the `<input type="date">` values), whose
`new Date(...)` value is the start of that day, `d * dayMs`. -/
structure Filters where
  ftype : Option TxType
  floc : Option String
  startDate : Option Nat
  endDate : Option Nat
  deriving DecidableEq, Repr

/-- `matchesType`: exact kind match, or pass-through for `'All'`. -/
def typeMatches (fp : Filters) (t : Transaction) : Bool :=
  match fp.ftype with
  | none => true
  | some ty => t.ttype = ty

/-- `matchesLocation`: exact string match, or pass-through for `'All'`. -/
def locMatches (fp : Filters) (t : Transaction) : Bool :=
  match fp.floc with
  | none => true
  | some loc => t.location = loc

/-- The `startDate` bound: on or after the start of the day. -/
def startMatches (fp : Filters) (t : Transaction) : Bool :=
  match fp.startDate with
  | none => true
  | some d => d * dayMs ≤ t.date

/-- The `endDate` bound: strictly before the start of the following day
(`nextDay.setDate(nextDay.getDate() + 1); date < nextDay`). -/
def endMatches (fp : Filters) (t : Transaction) : Bool :=
  match fp.endDate with
  | none => true
  | some d => t.date < (d + 1) * dayMs

/-- The filter predicate of `filteredTransactions` (lines 20-30). -/
def matchesFilter (fp : Filters) (t : Transaction) : Bool :=
  typeMatches fp t && locMatches fp t && startMatches fp t && endMatches fp t

/-- Descending stable sort by a natural-number key, embedding the stable
JavaScript `Array.prototype.sort` with comparator `(a, b) => k(b) - k(a)`. -/
def sortByDesc (k : α → Nat) (l : List α) : List α :=
  l.insertionSort (fun a b => k b ≤ k a)

/-- `filteredTransactions`: filter, then sort descending by date (ties
keep input order, as JavaScript sort is stable). -/
def filteredTransactions (ts : List Transaction) (fp : Filters) : List Transaction :=
  sortByDesc (·.date) (ts.filter (matchesFilter fp))

/-- The global summary statistics (`stats`, lines 35-48). -/
structure Stats where
  totalIssued : Nat
  totalReceived : Nat
  issuedQty : ℚ
  receivedQty : ℚ
  uniqueItems : Nat
  uniqueLocations : Nat
  deriving DecidableEq, Repr

/-- `stats` computed over a filtered transaction list. -/
def stats (fil : List Transaction) : Stats :=
  let issued := fil.filter (fun t => t.ttype = TxType.issue)
  let received := fil.filter (fun t => t.ttype = TxType.receive)
  { totalIssued := issued.length
    totalReceived := received.length
    issuedQty := sumQ (issued.map (·.quantity))
    receivedQty := sumQ (received.map (·.quantity))
    uniqueItems := (fil.map (·.itemName)).dedup.length
    uniqueLocations := (fil.map (·.location)).dedup.length }

/-- Per-item breakdown inside one floor entry.  The JavaScript `Set` of
persons is modelled as an insertion-ordered duplicate-free list. -/
structure ItemAgg where
  issued : ℚ
  received : ℚ
  unit : String
  persons : List String
  deriving DecidableEq, Repr

/-- One entry of the floor-wise summary map. -/
structure FloorAgg where
  location : String
  issued : Nat
  received : Nat
  issuedQty : ℚ
  receivedQty : ℚ
  items : List (String × ItemAgg)
  lastActivity : Nat
  deriving DecidableEq, Repr

/-- `Set.add`: append if not already present. -/
def addPerson (ps : List String) (p : String) : List String :=
  if p ∈ ps then ps else ps ++ [p]

/-- Update the item breakdown of a floor entry for one transaction
(lines 84-92): create the item record on first sight (its unit is the
first transaction's unit, defaulted to `"pcs"` when empty), then add the
quantity to the matching kind and record the person. -/
def updateItems (t : Transaction) : List (String × ItemAgg) → List (String × ItemAgg)
  | [] =>
    let base : ItemAgg :=
      { issued := 0, received := 0
        unit := if t.unit = "" then "pcs" else t.unit
        persons := [] }
    let upd :=
      match t.ttype with
      | TxType.issue => { base with issued := qadd base.issued t.quantity }
      | TxType.receive => { base with received := qadd base.received t.quantity }
    [(t.itemName, { upd with persons := addPerson upd.persons t.personName })]
  | (n, a) :: rest =>
    if n = t.itemName then
      let upd :=
        match t.ttype with
        | TxType.issue => { a with issued := qadd a.issued t.quantity }
        | TxType.receive => { a with received := qadd a.received t.quantity }
      (n, { upd with persons := addPerson upd.persons t.personName }) :: rest
    else (n, a) :: updateItems t rest

/-- Apply one transaction to its floor entry (lines 76-96): bump the
count and quantity of the matching kind, update the item breakdown, and
raise `lastActivity` to the transaction date when it is later. -/
def applyTx (f : FloorAgg) (t : Transaction) : FloorAgg :=
  let f1 :=
    match t.ttype with
    | TxType.issue => { f with issued := f.issued + 1, issuedQty := qadd f.issuedQty t.quantity }
    | TxType.receive =>
      { f with received := f.received + 1, receivedQty := qadd f.receivedQty t.quantity }
  { f1 with
    items := updateItems t f1.items
    lastActivity := if f1.lastActivity < t.date then t.date else f1.lastActivity }

/-- A fresh floor entry (lines 65-73), initialised with the first
transaction's date as `lastActivity`. -/
def newFloor (t : Transaction) : FloorAgg :=
  { location := t.location, issued := 0, received := 0, issuedQty := 0, receivedQty := 0
    items := [], lastActivity := t.date }

/-- One step of the `floorMap` fold: find the transaction's location
entry (object keys keep insertion order) or append a fresh one, then
apply the transaction to it. -/
def floorStep (t : Transaction) : List FloorAgg → List FloorAgg
  | [] => [applyTx (newFloor t) t]
  | f :: rest =>
    if f.location = t.location then applyTx f t :: rest
    else f :: floorStep t rest

/-- The unsorted floor map in insertion order (`Object.values(floorMap)`
after the `forEach` of lines 62-97). -/
def floorFold (fil : List Transaction) : List FloorAgg :=
  fil.foldl (fun m t => floorStep t m) []

/-- The sort key of the floor summary: `issued + received` transaction
counts. -/
def floorTotal (f : FloorAgg) : Nat :=
  f.issued + f.received

/-- `floorSummary`: the floor map sorted descending by total transaction
count (line 99); the JavaScript sort is stable. -/
def floorSummary (fil : List Transaction) : List FloorAgg :=
  sortByDesc floorTotal (floorFold fil)

/-- One cell of a CSV row before `join(",")` stringifies the array: the
JavaScript array mixes strings and the raw `t.quantity` number, and
`Number(String(x))` is the identity on numbers, so the numeric cell keeps
its exact value. -/
inductive Cell where
  | str (s : String)
  | num (q : ℚ)
  deriving DecidableEq, Repr

/-- Parsing a cell back as a number: a numeric cell yields its value
(the JavaScript `Number`/`String` round-trip is exact); a textual cell is
not a number. -/
def cellToNum : Cell → Option ℚ
  | .num q => some q
  | .str _ => none

/-- `Date.prototype.toLocaleDateString`, abstracted: some locale-specific
rendering of the calendar day of the timestamp. -/
def localeDateString (ms : Nat) : String :=
  toString (ms / dayMs)

/-- Literal double-quote character as a string. -/
def dq : String := String.singleton (Char.ofNat 34)

/-- One CSV export row (lines 114-124): nine cells in the header's
column order; itemName and personName are quote-wrapped, notes only when
present, and the quantity is the raw number. -/
def csvRow (t : Transaction) : List Cell :=
  [Cell.str (localeDateString t.date),
    Cell.str (match t.ttype with | TxType.issue => "ISSUE" | TxType.receive => "RECEIVE"),
    Cell.str (dq ++ t.itemName ++ dq),
    Cell.num t.quantity,
    Cell.str (if t.unit = "" then "" else t.unit),
    Cell.str t.location,
    Cell.str (dq ++ t.personName ++ dq),
    Cell.str (if t.notes = "" then "" else dq ++ t.notes ++ dq),
    Cell.str (if t.fileUrl = "" then "" else t.fileUrl)]

/-- The CSV body of `downloadCSV`: one row per filtered transaction, in
display order. -/
def csvRows (fil : List Transaction) : List (List Cell) :=
  fil.map csvRow

/-- Maximum of a list of timestamps, 0 when empty. -/
def natMax (l : List Nat) : Nat :=
  l.foldl Nat.max 0

/-- First-occurrence order of the values of a list, as JavaScript object
keys preserve insertion order. -/
def seenOrder (l : List String) : List String :=
  l.foldl (fun acc a => if a ∈ acc then acc else acc ++ [a]) []

/-- The aggregation invariant tying the floor map to the processed
prefix `pre` of the filtered transaction list: keys are the distinct
locations in first-occurrence order; each entry carries the per-location
per-kind counts and quantity sums and the maximum date; and the entry
sums of each kind add up to that kind's total quantity. -/
def FloorInv (pre : List Transaction) (m : List FloorAgg) : Prop :=
  (m.map (·.location) = seenOrder (pre.map (·.location))) ∧
  (∀ f ∈ m,
    f.issued = pre.countP (fun t => t.location = f.location && t.ttype = TxType.issue) ∧
    f.received = pre.countP (fun t => t.location = f.location && t.ttype = TxType.receive) ∧
    f.issuedQty = ((pre.filter (fun t =>
      t.location = f.location && t.ttype = TxType.issue)).map (·.quantity)).sum ∧
    f.receivedQty = ((pre.filter (fun t =>
      t.location = f.location && t.ttype = TxType.receive)).map (·.quantity)).sum ∧
    f.lastActivity = natMax ((pre.filter (fun t => t.location = f.location)).map (·.date))) ∧
  ((m.map (·.issuedQty)).sum =
    ((pre.filter (fun t => t.ttype = TxType.issue)).map (·.quantity)).sum) ∧
  ((m.map (·.receivedQty)).sum =
    ((pre.filter (fun t => t.ttype = TxType.receive)).map (·.quantity)).sum)

/-! ## Basic lemmas about the kernel-computable rational operations -/

/-- `qadd` is rational addition. -/
theorem qadd_eq_add (a b : ℚ) : qadd a b = a + b :=
  (Rat.add_def' a b).symm

/-- A left fold of `qadd` starting anywhere is the starting value plus
the list sum. -/
theorem foldl_qadd_eq (l : List ℚ) : ∀ a : ℚ, l.foldl qadd a = a + l.sum := by
  induction l with
  | nil => intro a; simp [List.foldl]
  | cons x xs ih =>
    intro a
    simp only [List.foldl, List.sum_cons, ih, qadd_eq_add]
    ring

/-- `sumQ` is the list sum. -/
theorem sumQ_eq_sum (l : List ℚ) : sumQ l = l.sum := by
  rw [sumQ, foldl_qadd_eq]
  ring

/-! ## Characterisation of the submission loop -/

/-- The submission calls of one loop run, in order: one call per item,
in input order, with the request built at the item's index and the
oracle's outcome at that index. -/
theorem submitLoop_submits (ok : Nat → Bool) (mk : Nat → ItemEntry → TxRequest)
    (total : Nat) : ∀ (l : List ItemEntry) (i : Nat),
    submitsOf (submitLoop ok mk total i l).1 =
      (List.enumFrom i l).map (fun p => (mk p.1 p.2, ok p.1)) := by
  intro l
  induction l with
  | nil => intro i; rfl
  | cons a rest ih =>
    intro i
    simp only [submitLoop, List.enumFrom, List.map_cons]
    rw [← ih (i + 1)]
    rfl

/-- The failed-item names of one loop run are the names of the items at
the indices the oracle fails, in input order. -/
theorem submitLoop_failed (ok : Nat → Bool) (mk : Nat → ItemEntry → TxRequest)
    (total : Nat) : ∀ (l : List ItemEntry) (i : Nat),
    (submitLoop ok mk total i l).2.2 = failedNames ok i l := by
  intro l
  induction l with
  | nil => intro i; rfl
  | cons a rest ih =>
    intro i
    simp only [submitLoop, failedNames, List.enumFrom, List.filter_cons]
    by_cases h : ok i
    · simp [h, ih (i + 1), failedNames]
    · simp [h, ih (i + 1), failedNames]

/-- The success count of one loop run counts the indices the oracle
accepts. -/
theorem submitLoop_success (ok : Nat → Bool) (mk : Nat → ItemEntry → TxRequest)
    (total : Nat) : ∀ (l : List ItemEntry) (i : Nat),
    (submitLoop ok mk total i l).2.1 =
      (List.enumFrom i l).countP (fun p => ok p.1) := by
  intro l
  induction l with
  | nil => intro i; rfl
  | cons a rest ih =>
    intro i
    simp only [submitLoop, List.enumFrom, List.countP_cons]
    by_cases h : ok i
    · simp [h, ih (i + 1)]
    · simp [h, ih (i + 1)]

/-- Each enumerated item's progress event directly precedes its
submission event in the loop trace. -/
theorem submitLoop_progress_before_submit (ok : Nat → Bool)
    (mk : Nat → ItemEntry → TxRequest) (total : Nat) :
    ∀ (l : List ItemEntry) (i : Nat), ∀ p ∈ List.enumFrom i l,
    ∃ A C, (submitLoop ok mk total i l).1 =
      A ++ Event.progress (p.1 + 1) total ::
        Event.submitCall (mk p.1 p.2) (ok p.1) :: C := by
  intro l
  induction l with
  | nil => intro i p hp; simp [List.enumFrom] at hp
  | cons a rest ih =>
    intro i p hp
    simp only [List.enumFrom, List.mem_cons] at hp
    rcases hp with hp | hp
    · subst hp
      exact ⟨[], (submitLoop ok mk total (i + 1) rest).1, rfl⟩
    · obtain ⟨A, C, hAC⟩ := ih (i + 1) p hp
      refine ⟨Event.progress (i + 1) total :: Event.submitCall (mk i a) (ok i) :: A, C, ?_⟩
      simp [submitLoop, hAC]

/-- The loop emits exactly one progress signal per item: the 1-based
item index paired with the batch size, in item order. -/
theorem submitLoop_progress (ok : Nat → Bool) (mk : Nat → ItemEntry → TxRequest)
    (total : Nat) : ∀ (l : List ItemEntry) (i : Nat),
    progressSignals (submitLoop ok mk total i l).1 =
      (List.enumFrom i l).map (fun p => (p.1 + 1, total)) := by
  intro l
  induction l with
  | nil => intro i; rfl
  | cons a rest ih =>
    intro i
    simp only [submitLoop, List.enumFrom, List.map_cons]
    rw [← ih (i + 1)]
    rfl

/-! ## Validation lemmas -/

/-- Validation skips a prefix of items that pass all per-item checks. -/
theorem validateItems_append (isIssue : Bool) (inventory : List InventoryItem)
    (pre l : List ItemEntry)
    (hpre : ∀ x ∈ pre, checkItem isIssue inventory x = none) :
    validateItems isIssue inventory (pre ++ l) = validateItems isIssue inventory l := by
  induction pre with
  | nil => rfl
  | cons a rest ih =>
    have ha : checkItem isIssue inventory a = none := hpre a (List.mem_cons_self a rest)
    simp only [List.cons_append, validateItems, ha]
    exact ih fun x hx => hpre x (List.mem_cons_of_mem a hx)

/-- Unfolding `handleSubmit` when validation fails: the message is set,
no event is emitted, the state is untouched and `onSuccess` does not
fire. -/
theorem handleSubmit_invalid (rtype : TxType) (inventory : List InventoryItem)
    (st : FormState) (upload : Bool × String) (ok : Nat → Bool) (nid : Nat) (e : VError)
    (h : validateItems (rtype = TxType.issue) inventory st.items = some e) :
    handleSubmit rtype inventory st upload ok nid =
      { state := st, events := [], messages := [msgOfError e], onSuccessFired := false } := by
  simp only [handleSubmit, h]

/-- Unfolding `handleSubmit` when validation passes. -/
theorem handleSubmit_valid (rtype : TxType) (inventory : List InventoryItem)
    (st : FormState) (upload : Bool × String) (ok : Nat → Bool) (nid : Nat)
    (h : validateItems (rtype = TxType.issue) inventory st.items = none) :
    handleSubmit rtype inventory st upload ok nid = submitPhase rtype st upload ok nid := by
  simp only [handleSubmit, h]

/-- **C1, counterexample.** The claim predicts that any issue batch
containing a line item with insufficient stock fails validation with
`InsufficientStock` at the first such item.  In the batch below, the
second item requests 10 of "Bolt" with only 5 available, yet validation
reports `MissingField` (the first item's empty quantity), not
`InsufficientStock`. -/
theorem C1_counterexample :
    (∃ it ∈ [ItemEntry.mk 1 "Bolt" "" "pcs", ItemEntry.mk 2 "Bolt" "10" "pcs"],
      ∃ inv q, findInv [InventoryItem.mk "Bolt" 5 "pcs"] it.itemName = some inv ∧
        toNumber it.quantity = some q ∧ inv.quantity < q) ∧
    validateItems true [InventoryItem.mk "Bolt" 5 "pcs"]
        [ItemEntry.mk 1 "Bolt" "" "pcs", ItemEntry.mk 2 "Bolt" "10" "pcs"] =
      some VError.missingField ∧
    ∀ n a u, validateItems true [InventoryItem.mk "Bolt" 5 "pcs"]
        [ItemEntry.mk 1 "Bolt" "" "pcs", ItemEntry.mk 2 "Bolt" "10" "pcs"] ≠
      some (VError.insufficientStock n a u) := by
  refine ⟨⟨ItemEntry.mk 2 "Bolt" "10" "pcs", by decide, InventoryItem.mk "Bolt" 5 "pcs", 10,
    by decide, by decide, by decide⟩, by decide, ?_⟩
  intro n a u
  intro h
  rw [show validateItems true [InventoryItem.mk "Bolt" 5 "pcs"]
      [ItemEntry.mk 1 "Bolt" "" "pcs", ItemEntry.mk 2 "Bolt" "10" "pcs"] =
      some VError.missingField from by decide] at h
  exact absurd (Option.some.inj h) (by intro hh; cases hh)

/-- **C1** (amended).  For an issue batch whose first validation-failing
line item is one with insufficient stock (all items before it pass every
check; the item itself has nonempty fields, matches an inventory item,
and requests more than is available, compared as decimals), validation
fails with `InsufficientStock` for that item; and on this - as on any -
validation failure the batch is aborted: the event trace is empty (zero
submission calls, zero uploads), the state is unchanged and the success
callback does not fire. -/
theorem C1_insufficient_stock_aborts (inventory : List InventoryItem)
    (pre post : List ItemEntry) (bad : ItemEntry) (inv : InventoryItem) (q : ℚ)
    (hpre : ∀ x ∈ pre, checkItem true inventory x = none)
    (hname : bad.itemName ≠ "") (hqty : bad.quantity ≠ "") (hunit : bad.unit ≠ "")
    (hfind : findInv inventory bad.itemName = some inv)
    (hnum : toNumber bad.quantity = some q)
    (hlt : inv.quantity < q) :
    validateItems true inventory (pre ++ bad :: post) =
      some (VError.insufficientStock bad.itemName inv.quantity inv.unit) ∧
    (∀ (st : FormState) (upload : Bool × String) (ok : Nat → Bool) (nid : Nat),
      st.items = pre ++ bad :: post →
      (handleSubmit TxType.issue inventory st upload ok nid).events = [] ∧
      (handleSubmit TxType.issue inventory st upload ok nid).state = st ∧
      (handleSubmit TxType.issue inventory st upload ok nid).onSuccessFired = false) ∧
    (∀ (rtype : TxType) (st : FormState) (upload : Bool × String) (ok : Nat → Bool)
        (nid : Nat) (e : VError),
      validateItems (rtype = TxType.issue) inventory st.items = some e →
      (handleSubmit rtype inventory st upload ok nid).events = [] ∧
      (handleSubmit rtype inventory st upload ok nid).state = st ∧
      (handleSubmit rtype inventory st upload ok nid).onSuccessFired = false) := by
  have hbad : checkItem true inventory bad =
      some (VError.insufficientStock bad.itemName inv.quantity inv.unit) := by
    unfold checkItem
    rw [if_neg (by simp [hname, hqty, hunit]), if_pos rfl, hfind, hnum]
    exact if_pos hlt
  have hval : validateItems true inventory (pre ++ bad :: post) =
      some (VError.insufficientStock bad.itemName inv.quantity inv.unit) := by
    rw [validateItems_append true inventory pre _ hpre]
    simp only [validateItems, hbad]
  refine ⟨hval, ?_, ?_⟩
  · intro st upload ok nid hst
    have h : validateItems (TxType.issue = TxType.issue) inventory st.items =
        some (VError.insufficientStock bad.itemName inv.quantity inv.unit) := by
      rw [hst]
      exact hval
    rw [handleSubmit_invalid TxType.issue inventory st upload ok nid _ h]
    exact ⟨rfl, rfl, rfl⟩
  · intro rtype st upload ok nid e h
    rw [handleSubmit_invalid rtype inventory st upload ok nid e h]
    exact ⟨rfl, rfl, rfl⟩

/-- **C1, witness.**  The amended theorem applied to the spec's own
example: inventory `Bolt, 5 pcs` and a single line item requesting
`10` of `Bolt`. -/
theorem C1_witness :
    validateItems true [InventoryItem.mk "Bolt" 5 "pcs"]
        ([] ++ ItemEntry.mk 1 "Bolt" "10" "pcs" :: []) =
      some (VError.insufficientStock "Bolt" 5 "pcs") ∧
    (handleSubmit TxType.issue [InventoryItem.mk "Bolt" 5 "pcs"]
        (FormState.mk [ItemEntry.mk 1 "Bolt" "10" "pcs"]
          (CommonData.mk "F1" "P" "") none)
        (false, "") (fun _ => true) 7).events = [] := by
  have h := C1_insufficient_stock_aborts [InventoryItem.mk "Bolt" 5 "pcs"]
    [] [] (ItemEntry.mk 1 "Bolt" "10" "pcs") (InventoryItem.mk "Bolt" 5 "pcs") 10
    (by intro x hx; cases hx) (by decide) (by decide) (by decide)
    (by decide) (by decide) (by decide)
  refine ⟨h.1, ?_⟩
  exact (h.2.1 (FormState.mk [ItemEntry.mk 1 "Bolt" "10" "pcs"]
    (CommonData.mk "F1" "P" "") none) (false, "") (fun _ => true) 7 rfl).1

/-! ## The submission phase: outcome classification -/

/-- `failedNames` on a cons step. -/
theorem failedNames_cons (ok : Nat → Bool) (i : Nat) (a : ItemEntry) (rest : List ItemEntry) :
    failedNames ok i (a :: rest) =
      if ok i then failedNames ok (i + 1) rest
      else a.itemName :: failedNames ok (i + 1) rest := by
  simp only [failedNames, List.enumFrom_cons, List.filter_cons]
  cases h : ok i <;> simp [h]

/-- Every failed name is the name of some batch item. -/
theorem failedNames_subset (ok : Nat → Bool) (i : Nat) (l : List ItemEntry) (x : String)
    (h : x ∈ failedNames ok i l) : x ∈ l.map (·.itemName) := by
  simp only [failedNames, List.mem_map, List.mem_filter] at h
  obtain ⟨p, ⟨hp, _⟩, hx⟩ := h
  have : p.2 ∈ l := by
    have := List.mem_map_of_mem Prod.snd hp
    rwa [List.enumFrom_map_snd] at this
  exact hx ▸ List.mem_map_of_mem (·.itemName) this

/-- If the oracle accepts every index of the batch, no name fails. -/
theorem failedNames_eq_nil (ok : Nat → Bool) (l : List ItemEntry) : ∀ (i : Nat),
    (∀ j, i ≤ j → j < i + l.length → ok j = true) → failedNames ok i l = [] := by
  induction l with
  | nil => intro i _; rfl
  | cons a rest ih =>
    intro i h
    rw [failedNames_cons, if_pos (h i (le_refl i) (by simp))]
    refine ih (i + 1) fun j h1 h2 => h j (by omega) ?_
    simp only [List.length_cons]
    omega

/-- With duplicate-free item names, keeping the items whose name failed
keeps exactly the items at failing indices, in order. -/
theorem filter_mem_failedNames (ok : Nat → Bool) :
    ∀ (l : List ItemEntry) (i : Nat), (l.map (·.itemName)).Nodup →
      l.filter (fun it => it.itemName ∈ failedNames ok i l) =
        ((List.enumFrom i l).filter (fun p => !ok p.1)).map (fun p => p.2) := by
  intro l
  induction l with
  | nil => intro i _; rfl
  | cons a rest ih =>
    intro i hnd
    have ha : a.itemName ∉ rest.map (·.itemName) := by
      simp only [List.map_cons, List.nodup_cons] at hnd
      exact hnd.1
    have hnd' : (rest.map (·.itemName)).Nodup := by
      simp only [List.map_cons, List.nodup_cons] at hnd
      exact hnd.2
    by_cases hok : ok i = true
    · have hhead : a.itemName ∉ failedNames ok (i + 1) rest := fun hm =>
        ha (failedNames_subset ok (i + 1) rest a.itemName hm)
      rw [failedNames_cons, if_pos hok]
      simp only [List.filter_cons, List.enumFrom_cons]
      rw [if_neg (by simpa using hhead), if_neg (by simp [hok])]
      exact ih (i + 1) hnd'
    · have hok' : ok i = false := by revert hok; cases ok i <;> simp
      rw [failedNames_cons, if_neg hok]
      simp only [List.filter_cons, List.enumFrom_cons]
      rw [if_pos (by simp), if_pos (by simp [hok'])]
      simp only [List.map_cons]
      congr 1
      have hcong :
          rest.filter (fun x => decide (x.itemName ∈ a.itemName :: failedNames ok (i + 1) rest)) =
            rest.filter (fun x => decide (x.itemName ∈ failedNames ok (i + 1) rest)) := by
        refine List.filter_congr fun x hx => ?_
        have hx' : x.itemName ≠ a.itemName := fun hxe =>
          ha (hxe ▸ List.mem_map_of_mem (·.itemName) hx)
        rw [decide_eq_decide]
        simp [List.mem_cons, hx']
      rw [hcong]
      exact ih (i + 1) hnd'

/-- The event trace of the submission phase is the same in all outcome
branches: upload events, the initial `{0, N}` progress reset, the loop
trace, then the progress clear. -/
theorem submitPhase_events (rtype : TxType) (st : FormState) (upload : Bool × String)
    (ok : Nat → Bool) (nid : Nat) :
    (submitPhase rtype st upload ok nid).events =
      (uploadPhase rtype st upload).1 ++ Event.progress 0 st.items.length ::
        (submitLoop ok (mkRequest rtype st.commonData (uploadPhase rtype st upload).2.2)
          st.items.length 0 st.items).1 ++ [Event.progressClear] := by
  simp only [submitPhase]
  split
  · rfl
  · split <;> rfl

/-- The messages of the submission phase are the upload warnings
followed by exactly one outcome message. -/
theorem submitPhase_messages (rtype : TxType) (st : FormState) (upload : Bool × String)
    (ok : Nat → Bool) (nid : Nat) :
    ∃ m : Msg, (submitPhase rtype st upload ok nid).messages =
      (uploadPhase rtype st upload).2.1 ++ [m] := by
  simp only [submitPhase]
  split
  · exact ⟨_, rfl⟩
  · split
    · exact ⟨_, rfl⟩
    · exact ⟨_, rfl⟩

/-- All submissions succeed: the item list is reset to one blank entry,
the common fields are cleared, the file is removed and `onSuccess`
fires. -/
theorem submitPhase_all_ok (rtype : TxType) (st : FormState) (upload : Bool × String)
    (ok : Nat → Bool) (nid : Nat)
    (hall : ∀ j, j < st.items.length → ok j = true) :
    (submitPhase rtype st upload ok nid).state =
      { items := [blankEntry nid]
        commonData := { location := "", personName := "", notes := "" }
        selectedFile := none } ∧
    (submitPhase rtype st upload ok nid).onSuccessFired = true := by
  have hfail : (submitLoop ok (mkRequest rtype st.commonData (uploadPhase rtype st upload).2.2)
      st.items.length 0 st.items).2.2 = [] := by
    rw [submitLoop_failed]
    exact failedNames_eq_nil ok st.items 0 fun j _ h2 => hall j (by omega)
  simp only [submitPhase, hfail]
  exact ⟨rfl, rfl⟩

/-- Some submissions fail and some succeed: the item list is replaced by
the failed items only, the common fields and the file are preserved, and
`onSuccess` fires. -/
theorem submitPhase_partial (rtype : TxType) (st : FormState) (upload : Bool × String)
    (ok : Nat → Bool) (nid : Nat)
    (hfail : failedNames ok 0 st.items ≠ [])
    (hsucc : 0 < (List.enumFrom 0 st.items).countP (fun p => ok p.1)) :
    (submitPhase rtype st upload ok nid).state.items =
      st.items.filter (fun it => it.itemName ∈ failedNames ok 0 st.items) ∧
    (submitPhase rtype st upload ok nid).state.commonData = st.commonData ∧
    (submitPhase rtype st upload ok nid).state.selectedFile = st.selectedFile ∧
    (submitPhase rtype st upload ok nid).onSuccessFired = true := by
  simp only [submitPhase, submitLoop_failed, submitLoop_success]
  rw [if_neg hfail, if_pos hsucc]
  exact ⟨rfl, rfl, rfl, rfl⟩

/-- No submission succeeds: nothing is cleared and `onSuccess` does not
fire. -/
theorem submitPhase_total_failure (rtype : TxType) (st : FormState) (upload : Bool × String)
    (ok : Nat → Bool) (nid : Nat)
    (hfail : failedNames ok 0 st.items ≠ [])
    (hsucc : ¬ 0 < (List.enumFrom 0 st.items).countP (fun p => ok p.1)) :
    (submitPhase rtype st upload ok nid).state = st ∧
    (submitPhase rtype st upload ok nid).onSuccessFired = false := by
  simp only [submitPhase, submitLoop_failed, submitLoop_success]
  rw [if_neg hfail, if_neg hsucc]
  exact ⟨rfl, rfl⟩

/-- **C2.**  For every batch in which every item passes validation and
every submission succeeds, the post-state item list is exactly one blank
entry (length 1, all of itemName, quantity and unit empty), the common
fields are reset and the attached file is cleared. -/
theorem C2_success_resets (rtype : TxType) (inventory : List InventoryItem)
    (st : FormState) (upload : Bool × String) (ok : Nat → Bool) (nid : Nat)
    (hvalid : validateItems (rtype = TxType.issue) inventory st.items = none)
    (hall : ∀ j, j < st.items.length → ok j = true) :
    (handleSubmit rtype inventory st upload ok nid).state.items = [blankEntry nid] ∧
    (handleSubmit rtype inventory st upload ok nid).state.items.length = 1 ∧
    (∀ it ∈ (handleSubmit rtype inventory st upload ok nid).state.items,
      it.itemName = "" ∧ it.quantity = "" ∧ it.unit = "") ∧
    (handleSubmit rtype inventory st upload ok nid).state.commonData =
      { location := "", personName := "", notes := "" } ∧
    (handleSubmit rtype inventory st upload ok nid).state.selectedFile = none := by
  rw [handleSubmit_valid _ _ _ _ _ _ hvalid]
  obtain ⟨hstate, _⟩ := submitPhase_all_ok rtype st upload ok nid hall
  rw [hstate]
  refine ⟨rfl, rfl, ?_, rfl, rfl⟩
  intro it hit
  rw [List.mem_singleton] at hit
  subst hit
  exact ⟨rfl, rfl, rfl⟩

/-- **C2, witness.**  A concrete receive batch with one item and an
always-succeeding sink. -/
theorem C2_witness :
    (handleSubmit TxType.receive []
        (FormState.mk [ItemEntry.mk 1 "Widget" "2" "pcs"] (CommonData.mk "F1" "P" "n") none)
        (false, "") (fun _ => true) 42).state.items = [blankEntry 42] ∧
    (handleSubmit TxType.receive []
        (FormState.mk [ItemEntry.mk 1 "Widget" "2" "pcs"] (CommonData.mk "F1" "P" "n") none)
        (false, "") (fun _ => true) 42).state.commonData =
      { location := "", personName := "", notes := "" } := by
  have h := C2_success_resets TxType.receive []
    (FormState.mk [ItemEntry.mk 1 "Widget" "2" "pcs"] (CommonData.mk "F1" "P" "n") none)
    (false, "") (fun _ => true) 42 (by decide) (fun j _ => rfl)
  exact ⟨h.1, h.2.2.2.1⟩

/-- **C3.**  With unique item names, a batch with at least one failed
and at least one successful submission keeps exactly the failed line
items (in input order), preserves the common fields, and fires the
success callback; a batch in which every submission fails changes no
state and does not fire the callback. -/
theorem C3_partial_and_total_failure (rtype : TxType) (inventory : List InventoryItem)
    (st : FormState) (upload : Bool × String) (ok : Nat → Bool) (nid : Nat)
    (hvalid : validateItems (rtype = TxType.issue) inventory st.items = none)
    (hnd : (st.items.map (·.itemName)).Nodup) :
    ((∃ p ∈ List.enumFrom 0 st.items, ok p.1 = false) →
      (∃ p ∈ List.enumFrom 0 st.items, ok p.1 = true) →
      (handleSubmit rtype inventory st upload ok nid).state.items =
        ((List.enumFrom 0 st.items).filter (fun p => !ok p.1)).map (fun p => p.2) ∧
      (handleSubmit rtype inventory st upload ok nid).state.items =
        st.items.filter (fun it => it.itemName ∈ failedNames ok 0 st.items) ∧
      (handleSubmit rtype inventory st upload ok nid).state.commonData = st.commonData ∧
      (handleSubmit rtype inventory st upload ok nid).onSuccessFired = true) ∧
    ((∀ p ∈ List.enumFrom 0 st.items, ok p.1 = false) → st.items ≠ [] →
      (handleSubmit rtype inventory st upload ok nid).state = st ∧
      (handleSubmit rtype inventory st upload ok nid).onSuccessFired = false) := by
  rw [handleSubmit_valid _ _ _ _ _ _ hvalid]
  constructor
  · intro hfail hsucc
    obtain ⟨p, hp, hpf⟩ := hfail
    have hfail' : failedNames ok 0 st.items ≠ [] := by
      intro hnil
      have := List.filter_eq_nil_iff.mp (List.map_eq_nil_iff.mp hnil)
      have hmem := this p hp
      rw [hpf] at hmem
      exact hmem rfl
    have hsucc' : 0 < (List.enumFrom 0 st.items).countP (fun p => ok p.1) := by
      rw [List.countP_pos_iff]
      exact hsucc
    obtain ⟨h1, h2, h3, h4⟩ := submitPhase_partial rtype st upload ok nid hfail' hsucc'
    refine ⟨?_, h1, h2, h4⟩
    rw [h1]
    exact filter_mem_failedNames ok st.items 0 hnd
  · intro hall hne
    have hfail' : failedNames ok 0 st.items ≠ [] := by
      obtain ⟨a, rest, heq⟩ := List.exists_cons_of_ne_nil hne
      have h0 : ok 0 = false := hall (0, a) (by rw [heq]; simp)
      rw [heq, failedNames_cons, if_neg (by simp [h0])]
      exact List.cons_ne_nil _ _
    have hsucc' : ¬ 0 < (List.enumFrom 0 st.items).countP (fun p => ok p.1) := by
      rw [List.countP_pos_iff]
      rintro ⟨p, hp, hpt⟩
      rw [hall p hp] at hpt
      cases hpt
    exact submitPhase_total_failure rtype st upload ok nid hfail' hsucc'

/-- **C3, witness.**  A concrete two-item batch in which the first item
succeeds and the second fails: exactly the second item is retained and
the common fields survive. -/
theorem C3_witness :
    (handleSubmit TxType.receive []
        (FormState.mk [ItemEntry.mk 1 "A" "1" "u", ItemEntry.mk 2 "B" "1" "u"]
          (CommonData.mk "F2" "Q" "") none)
        (false, "") (fun i => decide (i = 0)) 9).state.items = [ItemEntry.mk 2 "B" "1" "u"] ∧
    (handleSubmit TxType.receive []
        (FormState.mk [ItemEntry.mk 1 "A" "1" "u", ItemEntry.mk 2 "B" "1" "u"]
          (CommonData.mk "F2" "Q" "") none)
        (false, "") (fun i => decide (i = 0)) 9).state.commonData = CommonData.mk "F2" "Q" "" := by
  have h := (C3_partial_and_total_failure TxType.receive []
    (FormState.mk [ItemEntry.mk 1 "A" "1" "u", ItemEntry.mk 2 "B" "1" "u"]
      (CommonData.mk "F2" "Q" "") none)
    (false, "") (fun i => decide (i = 0)) 9 (by decide) (by decide)).1
    ⟨(1, ItemEntry.mk 2 "B" "1" "u"), by decide, by decide⟩
    ⟨(0, ItemEntry.mk 1 "A" "1" "u"), by decide, by decide⟩
  refine ⟨?_, h.2.2.1⟩
  rw [h.1]
  decide

/-! ## The upload phase and the event trace -/

/-- The upload phase of an issue batch, or of a batch without a file,
does nothing. -/
theorem uploadPhase_noop (rtype : TxType) (st : FormState) (upload : Bool × String)
    (h : rtype = TxType.issue ∨ st.selectedFile = none) :
    uploadPhase rtype st upload = ([], [], "") := by
  rcases h with h | h
  · subst h; rfl
  · cases rtype
    · rfl
    · simp only [uploadPhase, h]

/-- The upload phase of a receive batch with a selected file: one upload
call with the joined item names as hint; on success the URL is kept, on
failure the warning is recorded and the URL degrades to `""`. -/
theorem uploadPhase_receive_file (st : FormState) (upload : Bool × String) (f : String)
    (hf : st.selectedFile = some f) :
    uploadPhase TxType.receive st upload =
      (if upload.1 ∧ upload.2 ≠ "" then
        ([Event.uploadCall f (String.intercalate "_" (st.items.map (·.itemName)))], [], upload.2)
      else
        ([Event.uploadCall f (String.intercalate "_" (st.items.map (·.itemName)))],
          [Msg.uploadFailed], "")) := by
  simp only [uploadPhase, hf]

/-- The upload phase emits only upload-call events. -/
theorem uploadPhase_events_upload (rtype : TxType) (st : FormState) (upload : Bool × String) :
    ∀ e ∈ (uploadPhase rtype st upload).1, ∃ g h, e = Event.uploadCall g h := by
  intro e he
  cases rtype with
  | issue =>
    rw [uploadPhase_noop TxType.issue st upload (Or.inl rfl)] at he
    cases he
  | receive =>
    cases hf : st.selectedFile with
    | none =>
      rw [uploadPhase_noop TxType.receive st upload (Or.inr hf)] at he
      cases he
    | some f =>
      rw [uploadPhase_receive_file st upload f hf] at he
      by_cases hc : upload.1 ∧ upload.2 ≠ ""
      · rw [if_pos hc] at he
        rw [List.mem_singleton] at he
        exact ⟨f, _, he⟩
      · rw [if_neg hc] at he
        rw [List.mem_singleton] at he
        exact ⟨f, _, he⟩

/-- Extracting submissions from a full `submitPhase` trace reaches only
the loop part. -/
theorem submitsOf_trace (upl : List Event) (hupl : ∀ e ∈ upl, ∃ g h, e = Event.uploadCall g h)
    (c t : Nat) (L : List Event) :
    submitsOf (upl ++ Event.progress c t :: L ++ [Event.progressClear]) = submitsOf L := by
  induction upl with
  | nil =>
    simp only [List.nil_append, submitsOf, List.filterMap_cons, List.filterMap_append]
    simp [List.filterMap_cons]
  | cons e rest ih =>
    obtain ⟨g, h, rfl⟩ := hupl e (List.mem_cons_self e rest)
    simp only [List.cons_append, submitsOf, List.filterMap_cons]
    exact ih fun x hx => hupl x (List.mem_cons_of_mem _ hx)

/-- Extracting progress signals from a full `submitPhase` trace: the
initial `{c, t}` signal, then the loop's signals. -/
theorem progressSignals_trace (upl : List Event)
    (hupl : ∀ e ∈ upl, ∃ g h, e = Event.uploadCall g h) (c t : Nat) (L : List Event) :
    progressSignals (upl ++ Event.progress c t :: L ++ [Event.progressClear]) =
      (c, t) :: progressSignals L := by
  induction upl with
  | nil =>
    simp only [List.nil_append, progressSignals, List.filterMap_cons, List.filterMap_append]
    simp [List.filterMap_cons]
  | cons e rest ih =>
    obtain ⟨g, h, rfl⟩ := hupl e (List.mem_cons_self e rest)
    simp only [List.cons_append, progressSignals, List.filterMap_cons]
    exact ih fun x hx => hupl x (List.mem_cons_of_mem _ hx)

/-- The loop trace contains no upload events. -/
theorem submitLoop_no_upload (ok : Nat → Bool) (mk : Nat → ItemEntry → TxRequest)
    (total : Nat) : ∀ (l : List ItemEntry) (i : Nat),
    ∀ e ∈ (submitLoop ok mk total i l).1, isUpload e = false := by
  intro l
  induction l with
  | nil => intro i e he; cases he
  | cons a rest ih =>
    intro i e he
    simp only [submitLoop, List.mem_cons] at he
    rcases he with rfl | rfl | he
    · rfl
    · rfl
    · exact ih (i + 1) e he

/-- **C4, counterexample.**  The claim says each item's progress signal
is emitted after that item's submission outcome is known.  In a concrete
validated one-item run the trace contains exactly one submission event
and exactly one per-item progress signal `{1, 1}`, and the progress
signal occurs strictly *before* the submission event: the code sets
progress before awaiting `submitTransaction`, not after. -/
theorem C4_counterexample :
    (handleSubmit TxType.receive []
        (FormState.mk [ItemEntry.mk 1 "W" "2" "pcs"] (CommonData.mk "F1" "P" "") none)
        (false, "") (fun _ => true) 99).events.countP isSubmit = 1 ∧
    (handleSubmit TxType.receive []
        (FormState.mk [ItemEntry.mk 1 "W" "2" "pcs"] (CommonData.mk "F1" "P" "") none)
        (false, "") (fun _ => true) 99).events.countP
      (fun e => e = Event.progress 1 1) = 1 ∧
    (handleSubmit TxType.receive []
        (FormState.mk [ItemEntry.mk 1 "W" "2" "pcs"] (CommonData.mk "F1" "P" "") none)
        (false, "") (fun _ => true) 99).events.findIdx
      (fun e => e = Event.progress 1 1) <
    (handleSubmit TxType.receive []
        (FormState.mk [ItemEntry.mk 1 "W" "2" "pcs"] (CommonData.mk "F1" "P" "") none)
        (false, "") (fun _ => true) 99).events.findIdx isSubmit := by
  refine ⟨by decide, by decide, by decide⟩

/-- **C4** (amended).  For a validated batch of `N` items: submissions
happen strictly in input order with exactly `N` submission calls, each
carrying the request built for its index; exactly one progress signal
`{1-based index, N}` is emitted per item (after an initial `{0, N}`
reset); and each item's progress signal is emitted *immediately before*
that item's submission call - before, not after, the outcome is known. -/
theorem C4_submission_order_and_progress (rtype : TxType) (inventory : List InventoryItem)
    (st : FormState) (upload : Bool × String) (ok : Nat → Bool) (nid : Nat)
    (hvalid : validateItems (rtype = TxType.issue) inventory st.items = none) :
    ∃ u : String,
      submitsOf (handleSubmit rtype inventory st upload ok nid).events =
        (List.enumFrom 0 st.items).map
          (fun p => (mkRequest rtype st.commonData u p.1 p.2, ok p.1)) ∧
      (submitsOf (handleSubmit rtype inventory st upload ok nid).events).length =
        st.items.length ∧
      progressSignals (handleSubmit rtype inventory st upload ok nid).events =
        (0, st.items.length) ::
          (List.enumFrom 0 st.items).map (fun p => (p.1 + 1, st.items.length)) ∧
      (∀ p ∈ List.enumFrom 0 st.items, ∃ A C,
        (handleSubmit rtype inventory st upload ok nid).events =
          A ++ Event.progress (p.1 + 1) st.items.length ::
            Event.submitCall (mkRequest rtype st.commonData u p.1 p.2) (ok p.1) :: C) := by
  rw [handleSubmit_valid _ _ _ _ _ _ hvalid]
  refine ⟨(uploadPhase rtype st upload).2.2, ?_, ?_, ?_, ?_⟩
  · rw [submitPhase_events,
      submitsOf_trace _ (uploadPhase_events_upload rtype st upload) _ _ _,
      submitLoop_submits]
  · rw [submitPhase_events,
      submitsOf_trace _ (uploadPhase_events_upload rtype st upload) _ _ _,
      submitLoop_submits, List.length_map, List.enumFrom_length]
  · rw [submitPhase_events,
      progressSignals_trace _ (uploadPhase_events_upload rtype st upload) _ _ _,
      submitLoop_progress]
  · intro p hp
    obtain ⟨A, C, hAC⟩ := submitLoop_progress_before_submit ok
      (mkRequest rtype st.commonData (uploadPhase rtype st upload).2.2)
      st.items.length st.items 0 p hp
    refine ⟨(uploadPhase rtype st upload).1 ++ Event.progress 0 st.items.length :: A,
      C ++ [Event.progressClear], ?_⟩
    rw [submitPhase_events, hAC]
    simp [List.append_assoc]

/-- **C4, witness.**  The amended theorem at a concrete one-item batch:
the emitted progress signals are exactly `{0, 1}` then `{1, 1}`. -/
theorem C4_witness :
    progressSignals (handleSubmit TxType.receive []
        (FormState.mk [ItemEntry.mk 1 "W" "2" "pcs"] (CommonData.mk "F1" "P" "") none)
        (false, "") (fun _ => true) 99).events = [(0, 1), (1, 1)] := by
  obtain ⟨u, _, _, h3, _⟩ := C4_submission_order_and_progress TxType.receive []
    (FormState.mk [ItemEntry.mk 1 "W" "2" "pcs"] (CommonData.mk "F1" "P" "") none)
    (false, "") (fun _ => true) 99 (by decide)
  exact h3

/-- **C5.**  For a validated receive batch with a selected file: the
upload collaborator is called exactly once; the first item's request
carries the upload result (the returned URL on success, `""` on
failure) and every later item's request carries `""`; and upload failure
is non-fatal: the warning is surfaced and all `N` items are still
submitted. -/
theorem C5_upload_once_first_item (inventory : List InventoryItem) (st : FormState)
    (upload : Bool × String) (ok : Nat → Bool) (nid : Nat) (f : String)
    (hvalid : validateItems (TxType.receive = TxType.issue) inventory st.items = none)
    (hf : st.selectedFile = some f) :
    (handleSubmit TxType.receive inventory st upload ok nid).events.countP isUpload = 1 ∧
    (submitsOf (handleSubmit TxType.receive inventory st upload ok nid).events).map
        (fun r => r.1.fileUrl) =
      (List.enumFrom 0 st.items).map (fun p =>
        if p.1 = 0 then (if upload.1 ∧ upload.2 ≠ "" then upload.2 else "") else "") ∧
    (¬ (upload.1 ∧ upload.2 ≠ "") →
      Msg.uploadFailed ∈ (handleSubmit TxType.receive inventory st upload ok nid).messages ∧
      (submitsOf (handleSubmit TxType.receive inventory st upload ok nid).events).length =
        st.items.length) := by
  rw [handleSubmit_valid _ _ _ _ _ _ hvalid]
  have hu : (uploadPhase TxType.receive st upload).2.2 =
      (if upload.1 ∧ upload.2 ≠ "" then upload.2 else "") := by
    rw [uploadPhase_receive_file st upload f hf]
    split <;> rfl
  have hsub : submitsOf (submitPhase TxType.receive st upload ok nid).events =
      (List.enumFrom 0 st.items).map (fun p =>
        (mkRequest TxType.receive st.commonData (uploadPhase TxType.receive st upload).2.2
          p.1 p.2, ok p.1)) := by
    rw [submitPhase_events,
      submitsOf_trace _ (uploadPhase_events_upload TxType.receive st upload) _ _ _,
      submitLoop_submits]
  refine ⟨?_, ?_, ?_⟩
  · rw [submitPhase_events]
    have h1 : (uploadPhase TxType.receive st upload).1.countP isUpload = 1 := by
      rw [uploadPhase_receive_file st upload f hf]
      split <;> rfl
    have h2 : (submitLoop ok
        (mkRequest TxType.receive st.commonData (uploadPhase TxType.receive st upload).2.2)
        st.items.length 0 st.items).1.countP isUpload = 0 :=
      List.countP_eq_zero.mpr fun e he => by
        simp [submitLoop_no_upload ok _ st.items.length st.items 0 e he]
    simp only [List.countP_append, List.countP_cons, List.countP_nil, h2, h1]
    simp [isUpload]
  · rw [hsub, List.map_map]
    refine List.map_congr_left fun p _ => ?_
    show (mkRequest TxType.receive st.commonData
      (uploadPhase TxType.receive st upload).2.2 p.1 p.2).fileUrl = _
    rw [mkRequest]
    by_cases hp : p.1 = 0
    · rw [if_pos hp, if_pos hp, hu]
    · rw [if_neg hp, if_neg hp]
  · intro hfailed
    constructor
    · have hm : (uploadPhase TxType.receive st upload).2.1 = [Msg.uploadFailed] := by
        rw [uploadPhase_receive_file st upload f hf, if_neg hfailed]
      obtain ⟨m, hmsg⟩ := submitPhase_messages TxType.receive st upload ok nid
      rw [hmsg, hm]
      exact List.mem_append_left _ (List.mem_singleton.mpr rfl)
    · rw [hsub, List.length_map, List.enumFrom_length]

/-- **C5, witness.**  A concrete two-item receive batch whose upload
fails: one upload call, the warning is surfaced, both items are still
submitted, and both requests carry an empty file URL. -/
theorem C5_witness :
    (handleSubmit TxType.receive []
        (FormState.mk [ItemEntry.mk 1 "A" "1" "u", ItemEntry.mk 2 "B" "1" "u"]
          (CommonData.mk "F1" "P" "") (some "invoice.png"))
        (false, "") (fun _ => true) 5).events.countP isUpload = 1 ∧
    Msg.uploadFailed ∈ (handleSubmit TxType.receive []
        (FormState.mk [ItemEntry.mk 1 "A" "1" "u", ItemEntry.mk 2 "B" "1" "u"]
          (CommonData.mk "F1" "P" "") (some "invoice.png"))
        (false, "") (fun _ => true) 5).messages ∧
    (submitsOf (handleSubmit TxType.receive []
        (FormState.mk [ItemEntry.mk 1 "A" "1" "u", ItemEntry.mk 2 "B" "1" "u"]
          (CommonData.mk "F1" "P" "") (some "invoice.png"))
        (false, "") (fun _ => true) 5).events).length = 2 := by
  have h := C5_upload_once_first_item []
    (FormState.mk [ItemEntry.mk 1 "A" "1" "u", ItemEntry.mk 2 "B" "1" "u"]
      (CommonData.mk "F1" "P" "") (some "invoice.png"))
    (false, "") (fun _ => true) 5 "invoice.png" (by decide) rfl
  have h3 := h.2.2 (by decide)
  exact ⟨h.1, h3.1, h3.2⟩

/-- A nonempty failed-name list names at least one batch item. -/
theorem exists_mem_of_failedNames_ne_nil (ok : Nat → Bool) (l : List ItemEntry)
    (h : failedNames ok 0 l ≠ []) :
    ∃ it ∈ l, it.itemName ∈ failedNames ok 0 l := by
  obtain ⟨x, hx⟩ := List.exists_mem_of_ne_nil _ h
  have hx' := hx
  simp only [failedNames, List.mem_map, List.mem_filter] at hx'
  obtain ⟨p, ⟨hp, _⟩, hpx⟩ := hx'
  have hmem : p.2 ∈ l := by
    have := List.mem_map_of_mem Prod.snd hp
    rwa [List.enumFrom_map_snd] at this
  exact ⟨p.2, hmem, hpx ▸ hx⟩

/-- **C10.**  The editable item list is never empty: it starts as one
blank entry; `removeItem` refuses to act when at most one entry remains
and, with the unique ids the form allocates, always leaves at least one
entry; and every submission outcome (validation failure, success,
partial failure, total failure) leaves at least one entry. -/
theorem C10_items_never_empty :
    (∀ k, initialItems k = [blankEntry k]) ∧
    (∀ (items : List ItemEntry) (id : Nat), items.length ≤ 1 → removeItem items id = items) ∧
    (∀ (items : List ItemEntry) (id : Nat), (items.map (·.id)).Nodup → items ≠ [] →
      removeItem items id ≠ []) ∧
    (∀ (rtype : TxType) (inventory : List InventoryItem) (st : FormState)
        (upload : Bool × String) (ok : Nat → Bool) (nid : Nat), st.items ≠ [] →
      (handleSubmit rtype inventory st upload ok nid).state.items ≠ []) := by
  refine ⟨fun k => rfl, fun items id h => by rw [removeItem, if_pos h], ?_, ?_⟩
  · intro items id hnd hne
    rw [removeItem]
    by_cases hlen : items.length ≤ 1
    · rw [if_pos hlen]; exact hne
    · rw [if_neg hlen]
      rcases items with _ | ⟨a, _ | ⟨b, rest⟩⟩
      · exact absurd (by simp) hlen
      · exact absurd (by simp) hlen
      · intro hnil
        rw [List.filter_eq_nil_iff] at hnil
        have hab : a.id ≠ b.id := by
          simp only [List.map_cons, List.nodup_cons, List.mem_cons, List.mem_map] at hnd
          intro he
          exact hnd.1 (Or.inl he)
        have ha : a.id = id := by
          simpa using hnil a (List.mem_cons_self _ _)
        have hb : b.id = id := by
          simpa using hnil b (List.mem_cons_of_mem _ (List.mem_cons_self _ _))
        exact hab (ha.trans hb.symm)
  · intro rtype inventory st upload ok nid hne
    cases hval : validateItems (rtype = TxType.issue) inventory st.items with
    | some e =>
      rw [handleSubmit_invalid _ _ _ _ _ _ _ hval]
      exact hne
    | none =>
      rw [handleSubmit_valid _ _ _ _ _ _ hval]
      simp only [submitPhase, submitLoop_failed, submitLoop_success]
      by_cases hfail : failedNames ok 0 st.items = []
      · rw [if_pos hfail]
        simp
      · rw [if_neg hfail]
        by_cases hsucc : 0 < (List.enumFrom 0 st.items).countP (fun p => ok p.1)
        · rw [if_pos hsucc]
          obtain ⟨it, hit, hname⟩ := exists_mem_of_failedNames_ne_nil ok st.items hfail
          intro hnil
          rw [List.filter_eq_nil_iff] at hnil
          exact hnil it hit (by simpa using hname)
        · rw [if_neg hsucc]
          exact hne

/-- **C10, witness.**  The invariant applied at concrete inputs:
removal is refused on a singleton list, removal from a two-entry list
with distinct ids leaves an entry, and a totally failed submission
leaves the list intact. -/
theorem C10_witness :
    removeItem [blankEntry 3] 3 = [blankEntry 3] ∧
    removeItem [ItemEntry.mk 1 "A" "" "", ItemEntry.mk 2 "B" "" ""] 1 ≠ [] ∧
    (handleSubmit TxType.receive []
        (FormState.mk [ItemEntry.mk 1 "A" "1" "u"] (CommonData.mk "" "" "") none)
        (false, "") (fun _ => false) 4).state.items ≠ [] := by
  refine ⟨C10_items_never_empty.2.1 [blankEntry 3] 3 (by decide),
    C10_items_never_empty.2.2.1 [ItemEntry.mk 1 "A" "" "", ItemEntry.mk 2 "B" "" ""] 1
      (by decide) (by decide),
    C10_items_never_empty.2.2.2 TxType.receive []
      (FormState.mk [ItemEntry.mk 1 "A" "1" "u"] (CommonData.mk "" "" "") none)
      (false, "") (fun _ => false) 4 (by decide)⟩

/-! ## The transaction filter -/

/-- The stable descending sort does not change membership. -/
theorem mem_sortByDesc (k : α → Nat) (l : List α) (x : α) :
    x ∈ sortByDesc k l ↔ x ∈ l :=
  List.mem_insertionSort _

/-- **C6.**  With `endDate` set to day `d`, a transaction dated at any
time of day on `d`'s calendar date passes the end bound (which compares
strictly against the start of the following day), and hence - if it also
passes the type, location and start checks - is in the filtered set; and
with `startDate` set, a transaction passes the filter only if its date
is on or after the start of that day. -/
theorem C6_date_boundaries (ts : List Transaction) (fp : Filters) (t : Transaction)
    (d1 : Nat) (hend : fp.endDate = some d1) :
    (t.date / dayMs = d1 → endMatches fp t = true) ∧
    (t.date / dayMs = d1 → typeMatches fp t = true → locMatches fp t = true →
      startMatches fp t = true → t ∈ ts → t ∈ filteredTransactions ts fp) ∧
    (∀ s, fp.startDate = some s → matchesFilter fp t = true → s * dayMs ≤ t.date) := by
  have hday : ∀ (h : t.date / dayMs = d1), t.date < (d1 + 1) * dayMs := by
    intro h
    refine (Nat.div_lt_iff_lt_mul (by decide : 0 < dayMs)).mp ?_
    omega
  have hendM : t.date / dayMs = d1 → endMatches fp t = true := by
    intro h
    rw [endMatches, hend]
    exact decide_eq_true (hday h)
  refine ⟨hendM, ?_, ?_⟩
  · intro h htype hloc hstart hmem
    rw [filteredTransactions, mem_sortByDesc, List.mem_filter]
    refine ⟨hmem, ?_⟩
    rw [matchesFilter, htype, hloc, hstart, hendM h]
    rfl
  · intro s hs hmatch
    rw [matchesFilter, Bool.and_eq_true, Bool.and_eq_true, Bool.and_eq_true] at hmatch
    have := hmatch.1.2
    rw [startMatches, hs] at this
    exact of_decide_eq_true this

/-- **C6, witness.**  A transaction dated 01:00 on day 19000 is kept by
a filter whose `endDate` is day 19000. -/
theorem C6_witness :
    Transaction.mk 1 (19000 * dayMs + 3600000) TxType.issue "A" 1 "u" "F1" "P" "" "" ∈
      filteredTransactions
        [Transaction.mk 1 (19000 * dayMs + 3600000) TxType.issue "A" 1 "u" "F1" "P" "" ""]
        (Filters.mk none none none (some 19000)) := by
  exact (C6_date_boundaries
    [Transaction.mk 1 (19000 * dayMs + 3600000) TxType.issue "A" 1 "u" "F1" "P" "" ""]
    (Filters.mk none none none (some 19000))
    (Transaction.mk 1 (19000 * dayMs + 3600000) TxType.issue "A" 1 "u" "F1" "P" "" "")
    19000 rfl).2.1 (by decide) rfl rfl rfl (by decide)

/-! ## The CSV projection -/

/-- **C9.**  The CSV body has exactly one row per filtered transaction,
in display order; each row has the nine specified columns with the
transaction's fields in order, and its quantity cell, read back as a
number, is exactly the transaction's quantity. -/
theorem C9_csv_rows (ts : List Transaction) (fp : Filters) :
    (csvRows (filteredTransactions ts fp)).length = (filteredTransactions ts fp).length ∧
    (∀ i : Nat, (csvRows (filteredTransactions ts fp))[i]? =
      ((filteredTransactions ts fp)[i]?).map csvRow) ∧
    (∀ t ∈ filteredTransactions ts fp,
      (csvRow t).length = 9 ∧
      (csvRow t)[0]? = some (Cell.str (localeDateString t.date)) ∧
      (csvRow t)[2]? = some (Cell.str (dq ++ t.itemName ++ dq)) ∧
      (csvRow t)[3]? = some (Cell.num t.quantity) ∧
      ((csvRow t)[3]?).bind cellToNum = some t.quantity ∧
      (csvRow t)[5]? = some (Cell.str t.location) ∧
      (csvRow t)[6]? = some (Cell.str (dq ++ t.personName ++ dq))) := by
  refine ⟨List.length_map _ _, fun i => List.getElem?_map csvRow (filteredTransactions ts fp) i, fun t _ => ?_⟩
  exact ⟨rfl, rfl, rfl, rfl, rfl, rfl, rfl⟩

/-- **C9, witness.**  The row facts at a concrete filtered transaction. -/
theorem C9_witness :
    (csvRow (Transaction.mk 1 5 TxType.issue "A" 3 "kg" "F1" "P" "" "")).length = 9 ∧
    ((csvRow (Transaction.mk 1 5 TxType.issue "A" 3 "kg" "F1" "P" "" ""))[3]?).bind
      cellToNum = some 3 := by
  have h := (C9_csv_rows [Transaction.mk 1 5 TxType.issue "A" 3 "kg" "F1" "P" "" ""]
    (Filters.mk none none none none)).2.2
    (Transaction.mk 1 5 TxType.issue "A" 3 "kg" "F1" "P" "" "") (by decide)
  exact ⟨h.1, h.2.2.2.2.1⟩

/-! ## The stable descending sort -/

/-- The stable descending sort is a permutation of its input. -/
theorem sortByDesc_perm (k : α → Nat) (l : List α) : List.Perm (sortByDesc k l) l :=
  List.perm_insertionSort _ l

/-- The stable descending sort is sorted: later entries have keys no
larger than earlier ones. -/
theorem sortByDesc_sorted (k : α → Nat) (l : List α) :
    (sortByDesc k l).Pairwise (fun a b => k b ≤ k a) := by
  haveI : IsTotal α (fun a b => k b ≤ k a) := ⟨fun a b => Nat.le_total (k b) (k a)⟩
  haveI : IsTrans α (fun a b => k b ≤ k a) := ⟨fun _ _ _ hab hbc => Nat.le_trans hbc hab⟩
  exact List.sorted_insertionSort _ l

/-- Inserting into the descending order: the elements of any fixed key
class `c` are preserved, with the inserted element (when in the class)
placed first. -/
theorem filter_key_orderedInsert (k : α → Nat) (c : Nat) (x : α) :
    ∀ l : List α,
      (List.orderedInsert (fun a b => k b ≤ k a) x l).filter (fun y => decide (k y = c)) =
        if k x = c then x :: l.filter (fun y => decide (k y = c))
        else l.filter (fun y => decide (k y = c)) := by
  intro l
  induction l with
  | nil =>
    rw [List.orderedInsert_nil, List.filter_cons, List.filter_nil]
    by_cases hx : k x = c
    · rw [if_pos (by simpa using hx), if_pos hx]
    · rw [if_neg (by simpa using hx), if_neg hx]
  | cons y ys ih =>
    by_cases hr : k y ≤ k x
    · rw [show List.orderedInsert (fun a b => k b ≤ k a) x (y :: ys) = x :: y :: ys from
        if_pos hr]
      simp only [List.filter_cons]
      by_cases hx : k x = c <;> simp [hx]
    · rw [show List.orderedInsert (fun a b => k b ≤ k a) x (y :: ys) =
          y :: List.orderedInsert (fun a b => k b ≤ k a) x ys from if_neg hr]
      have hxy : k x < k y := Nat.lt_of_not_le fun h => hr h
      simp only [List.filter_cons, ih]
      by_cases hx : k x = c
      · have hy : ¬ k y = c := by omega
        simp [hx, hy]
      · by_cases hy : k y = c <;> simp [hx, hy]

/-- Stability of the descending sort: within each fixed key class the
sorted output lists exactly the input's elements, in input order. -/
theorem filter_key_sortByDesc (k : α → Nat) (c : Nat) :
    ∀ l : List α,
      (sortByDesc k l).filter (fun y => decide (k y = c)) =
        l.filter (fun y => decide (k y = c)) := by
  intro l
  induction l with
  | nil => rfl
  | cons x xs ih =>
    have ih' : (List.insertionSort (fun a b => k b ≤ k a) xs).filter
        (fun y => decide (k y = c)) = xs.filter (fun y => decide (k y = c)) := ih
    show (List.orderedInsert _ x (List.insertionSort _ xs)).filter _ = _
    rw [filter_key_orderedInsert]
    simp only [List.filter_cons, ih']
    by_cases hx : k x = c <;> simp [hx]

/-! ## `seenOrder` and `natMax` -/

/-- One step of `seenOrder` on the right. -/
theorem seenOrder_append (l : List String) (a : String) :
    seenOrder (l ++ [a]) =
      if a ∈ seenOrder l then seenOrder l else seenOrder l ++ [a] := by
  rw [seenOrder, List.foldl_append]
  rfl

/-- Membership in the generalized `seenOrder` fold. -/
theorem mem_seenOrder_aux (x : String) :
    ∀ (l acc : List String),
      (x ∈ l.foldl (fun acc a => if a ∈ acc then acc else acc ++ [a]) acc ↔
        x ∈ acc ∨ x ∈ l) := by
  intro l
  induction l with
  | nil => intro acc; simp
  | cons a rest ih =>
    intro acc
    rw [List.foldl_cons, ih]
    by_cases ha : a ∈ acc
    · rw [if_pos ha]
      constructor
      · rintro (h | h)
        · exact Or.inl h
        · exact Or.inr (List.mem_cons_of_mem a h)
      · rintro (h | h)
        · exact Or.inl h
        · rcases List.mem_cons.mp h with rfl | h
          · exact Or.inl ha
          · exact Or.inr h
    · rw [if_neg ha]
      simp only [List.mem_append, List.mem_singleton, List.mem_cons]
      tauto

/-- `seenOrder` keeps exactly the values of the list. -/
theorem mem_seenOrder (x : String) (l : List String) : x ∈ seenOrder l ↔ x ∈ l := by
  rw [seenOrder, mem_seenOrder_aux]
  simp

/-- `seenOrder` never repeats a value. -/
theorem nodup_seenOrder (l : List String) : (seenOrder l).Nodup := by
  suffices h : ∀ (l acc : List String), acc.Nodup →
      (l.foldl (fun acc a => if a ∈ acc then acc else acc ++ [a]) acc).Nodup from
    h l [] List.nodup_nil
  intro l
  induction l with
  | nil => intro acc h; exact h
  | cons a rest ih =>
    intro acc h
    rw [List.foldl_cons]
    by_cases ha : a ∈ acc
    · rw [if_pos ha]; exact ih acc h
    · rw [if_neg ha]
      refine ih _ ?_
      simp [List.nodup_append, h, ha]

/-- `natMax` over an appended element. -/
theorem natMax_append (l : List Nat) (a : Nat) :
    natMax (l ++ [a]) = Nat.max (natMax l) a := by
  rw [natMax, natMax, List.foldl_append]
  rfl

/-! ## The floor aggregation invariant -/

/-- Field-level description of one `applyTx` update. -/
theorem applyTx_fields (f : FloorAgg) (t : Transaction) :
    (applyTx f t).location = f.location ∧
    (applyTx f t).issued = f.issued + (if t.ttype = TxType.issue then 1 else 0) ∧
    (applyTx f t).received = f.received + (if t.ttype = TxType.receive then 1 else 0) ∧
    (applyTx f t).issuedQty = f.issuedQty + (if t.ttype = TxType.issue then t.quantity else 0) ∧
    (applyTx f t).receivedQty =
      f.receivedQty + (if t.ttype = TxType.receive then t.quantity else 0) ∧
    (applyTx f t).lastActivity = Nat.max f.lastActivity t.date := by
  have hmax : (if f.lastActivity < t.date then t.date else f.lastActivity) =
      Nat.max f.lastActivity t.date := by
    show _ = if f.lastActivity ≤ t.date then t.date else f.lastActivity
    rcases Nat.lt_or_ge f.lastActivity t.date with h | h
    · rw [if_pos h, if_pos (Nat.le_of_lt h)]
    · rw [if_neg (Nat.not_lt.mpr h)]
      by_cases he : f.lastActivity = t.date
      · rw [if_pos (le_of_eq he), he]
      · rw [if_neg (by omega)]
  cases ht : t.ttype with
  | issue => simp [applyTx, ht, qadd_eq_add, hmax]
  | receive => simp [applyTx, ht, qadd_eq_add, hmax]

/-- A transaction of an unseen location appends a fresh entry at the
end of the floor map. -/
theorem floorStep_not_mem (t : Transaction) :
    ∀ m : List FloorAgg, (∀ f ∈ m, f.location ≠ t.location) →
      floorStep t m = m ++ [applyTx (newFloor t) t] := by
  intro m
  induction m with
  | nil => intro _; rfl
  | cons f rest ih =>
    intro h
    rw [floorStep, if_neg (h f (List.mem_cons_self f rest))]
    rw [List.cons_append]
    exact congrArg _ (ih fun g hg => h g (List.mem_cons_of_mem f hg))

/-- A transaction of a seen location updates the first entry of that
location in place. -/
theorem floorStep_split (t : Transaction) :
    ∀ (m₁ : List FloorAgg) (f : FloorAgg) (m₂ : List FloorAgg),
      (∀ g ∈ m₁, g.location ≠ t.location) → f.location = t.location →
      floorStep t (m₁ ++ f :: m₂) = m₁ ++ applyTx f t :: m₂ := by
  intro m₁
  induction m₁ with
  | nil =>
    intro f m₂ _ hf
    rw [List.nil_append, List.nil_append, floorStep, if_pos hf]
  | cons g rest ih =>
    intro f m₂ h hf
    rw [List.cons_append, floorStep, if_neg (h g (List.mem_cons_self g rest)), List.cons_append]
    exact congrArg _ (ih f m₂ (fun x hx => h x (List.mem_cons_of_mem g hx)) hf)

/-- Decompose a floor map at the first entry of a given location. -/
theorem exists_split_of_mem_locs :
    ∀ (m : List FloorAgg) (loc : String), loc ∈ m.map (·.location) →
      ∃ m₁ f m₂, m = m₁ ++ f :: m₂ ∧ f.location = loc ∧ ∀ g ∈ m₁, g.location ≠ loc := by
  intro m
  induction m with
  | nil => intro loc h; cases h
  | cons f rest ih =>
    intro loc h
    by_cases hf : f.location = loc
    · exact ⟨[], f, rest, rfl, hf, fun g hg => absurd hg (List.not_mem_nil g)⟩
    · have h' : loc ∈ rest.map (·.location) := by
        rcases List.mem_cons.mp h with he | h'
        · exact absurd he.symm hf
        · exact h'
      obtain ⟨m₁, g, m₂, heq, hgl, hm₁⟩ := ih loc h'
      refine ⟨f :: m₁, g, m₂, by rw [heq, List.cons_append], hgl, ?_⟩
      intro x hx
      rcases List.mem_cons.mp hx with rfl | hx
      · exact hf
      · exact hm₁ x hx

/-- One fold step preserves the aggregation invariant. -/
theorem floorInv_step (pre : List Transaction) (m : List FloorAgg) (t : Transaction)
    (h : FloorInv pre m) : FloorInv (pre ++ [t]) (floorStep t m) := by
  obtain ⟨hkeys, hent, hsi, hsr⟩ := h
  have hcount : ∀ p : Transaction → Bool,
      (pre ++ [t]).countP p = pre.countP p + (if p t then 1 else 0) := fun p => by
    rw [List.countP_append]
    simp [List.countP_cons]
  have hfilter : ∀ p : Transaction → Bool,
      (pre ++ [t]).filter p = pre.filter p ++ (if p t then [t] else []) := fun p => by
    rw [List.filter_append]
    congr 1
    rw [List.filter_cons, List.filter_nil]
  have hsum : ∀ p : Transaction → Bool,
      (((pre ++ [t]).filter p).map (·.quantity)).sum =
        ((pre.filter p).map (·.quantity)).sum + (if p t then t.quantity else 0) := fun p => by
    rw [hfilter p, List.map_append, List.sum_append]
    by_cases hp : p t = true <;> simp [hp]
  have hdates : ∀ p : Transaction → Bool,
      natMax (((pre ++ [t]).filter p).map (·.date)) =
        (if p t then Nat.max (natMax ((pre.filter p).map (·.date))) t.date
        else natMax ((pre.filter p).map (·.date))) := fun p => by
    rw [hfilter p, List.map_append]
    by_cases hp : p t = true
    · rw [if_pos hp, if_pos hp]
      exact natMax_append _ _
    · rw [if_neg hp, if_neg hp]
      simp
  by_cases hmem : t.location ∈ m.map (·.location)
  · -- seen location: update the first matching entry in place
    obtain ⟨m₁, f, m₂, heq, hfl, hm₁⟩ := exists_split_of_mem_locs m t.location hmem
    obtain ⟨hloc0, hi0, hr0, hiq0, hrq0, hla0⟩ := applyTx_fields f t
    have hinpre : t.location ∈ pre.map (·.location) := by
      have := hkeys ▸ hmem
      exact (mem_seenOrder _ _).mp this
    subst heq
    rw [floorStep_split t m₁ f m₂ hm₁ hfl]
    have hfmem : f ∈ m₁ ++ f :: m₂ := List.mem_append_right _ (List.mem_cons_self _ _)
    obtain ⟨h1, h2, h3, h4, h5⟩ := hent f hfmem
    have hnodup : ((m₁ ++ f :: m₂).map (·.location)).Nodup := by
      rw [hkeys]; exact nodup_seenOrder _
    have hm₂ : ∀ g ∈ m₂, g.location ≠ t.location := by
      intro g hg he
      rw [List.map_append, List.map_cons] at hnodup
      have := (List.nodup_append.mp hnodup).2.1
      rw [List.nodup_cons] at this
      exact this.1 (hfl.trans he.symm ▸ List.mem_map_of_mem (·.location) hg)
    have hold : ∀ g, g ∈ m₁ ∨ g ∈ m₂ →
        g.issued = (pre ++ [t]).countP
          (fun x => x.location = g.location && x.ttype = TxType.issue) ∧
        g.received = (pre ++ [t]).countP
          (fun x => x.location = g.location && x.ttype = TxType.receive) ∧
        g.issuedQty = (((pre ++ [t]).filter (fun x =>
          x.location = g.location && x.ttype = TxType.issue)).map (·.quantity)).sum ∧
        g.receivedQty = (((pre ++ [t]).filter (fun x =>
          x.location = g.location && x.ttype = TxType.receive)).map (·.quantity)).sum ∧
        g.lastActivity = natMax (((pre ++ [t]).filter
          (fun x => x.location = g.location)).map (·.date)) := by
      intro g hg
      have hgm : g ∈ m₁ ++ f :: m₂ := by
        rcases hg with hg | hg
        · exact List.mem_append_left _ hg
        · exact List.mem_append_right _ (List.mem_cons_of_mem _ hg)
      have hne : g.location ≠ t.location := by
        rcases hg with hg | hg
        · exact hm₁ g hg
        · exact hm₂ g hg
      have hploc : (decide (t.location = g.location)) = false :=
        decide_eq_false fun he => hne he.symm
      obtain ⟨g1, g2, g3, g4, g5⟩ := hent g hgm
      refine ⟨?_, ?_, ?_, ?_, ?_⟩
      · rw [hcount]; simp [hploc, g1]
      · rw [hcount]; simp [hploc, g2]
      · rw [hsum]; simp [hploc, g3]
      · rw [hsum]; simp [hploc, g4]
      · rw [hdates]; simp [hploc, g5]
    have hth : (decide (t.location = f.location)) = true := decide_eq_true hfl.symm
    refine ⟨?_, ?_, ?_, ?_⟩
    · -- keys unchanged
      have hmc : List.map (·.location) (m₁ ++ applyTx f t :: m₂) =
          List.map (·.location) (m₁ ++ f :: m₂) := by
        simp [hloc0]
      rw [hmc, hkeys, List.map_append,
        show List.map (·.location) [t] = [t.location] from rfl,
        seenOrder_append, if_pos ((mem_seenOrder _ _).mpr hinpre)]
    · -- entries
      intro g hg
      rcases List.mem_append.mp hg with hg | hg
      · exact hold g (Or.inl hg)
      · rcases List.mem_cons.mp hg with rfl | hg
        · refine ⟨?_, ?_, ?_, ?_, ?_⟩
          · rw [hloc0, hcount, hi0, h1]
            by_cases ht : t.ttype = TxType.issue <;> simp [ht, hth]
          · rw [hloc0, hcount, hr0, h2]
            by_cases ht : t.ttype = TxType.receive <;> simp [ht, hth]
          · rw [hloc0, hsum, hiq0, h3]
            by_cases ht : t.ttype = TxType.issue <;> simp [ht, hth]
          · rw [hloc0, hsum, hrq0, h4]
            by_cases ht : t.ttype = TxType.receive <;> simp [ht, hth]
          · rw [hloc0, hdates, hla0, h5]
            simp [hth]
        · exact hold g (Or.inr hg)
    · -- issued total
      rw [List.map_append, List.map_cons, List.sum_append, List.sum_cons, hiq0, hsum]
      rw [List.map_append, List.map_cons, List.sum_append, List.sum_cons] at hsi
      rw [← hsi]
      by_cases ht : t.ttype = TxType.issue <;> (simp [ht]; try ring)
    · -- received total
      rw [List.map_append, List.map_cons, List.sum_append, List.sum_cons, hrq0, hsum]
      rw [List.map_append, List.map_cons, List.sum_append, List.sum_cons] at hsr
      rw [← hsr]
      by_cases ht : t.ttype = TxType.receive <;> (simp [ht]; try ring)
  · -- unseen location: a fresh entry is appended
    have hnotpre : t.location ∉ pre.map (·.location) := by
      intro hc
      exact (hkeys ▸ hmem) ((mem_seenOrder _ _).mpr hc)
    have hnone : ∀ f ∈ m, f.location ≠ t.location := by
      intro f hf he
      exact hmem (he ▸ List.mem_map_of_mem (·.location) hf)
    obtain ⟨hloc0, hi0, hr0, hiq0, hrq0, hla0⟩ := applyTx_fields (newFloor t) t
    have heloc : (applyTx (newFloor t) t).location = t.location := hloc0
    have hxl : ∀ x ∈ pre, (decide (x.location = t.location)) = false := fun x hx =>
      decide_eq_false fun he => hnotpre (he ▸ List.mem_map_of_mem (·.location) hx)
    have hth : (decide (t.location = t.location)) = true := decide_eq_true rfl
    rw [floorStep_not_mem t m hnone]
    refine ⟨?_, ?_, ?_, ?_⟩
    · rw [List.map_append, hkeys, List.map_append,
        show List.map (·.location) [t] = [t.location] from rfl,
        show List.map (·.location) [applyTx (newFloor t) t] = [t.location] from by
          simp [heloc],
        seenOrder_append, if_neg (fun hc => hnotpre ((mem_seenOrder _ _).mp hc))]
    · intro g hg
      rcases List.mem_append.mp hg with hg | hg
      · have hne : g.location ≠ t.location := hnone g hg
        have hploc : (decide (t.location = g.location)) = false :=
          decide_eq_false fun he => hne he.symm
        obtain ⟨g1, g2, g3, g4, g5⟩ := hent g hg
        refine ⟨?_, ?_, ?_, ?_, ?_⟩
        · rw [hcount]; simp [hploc, g1]
        · rw [hcount]; simp [hploc, g2]
        · rw [hsum]; simp [hploc, g3]
        · rw [hsum]; simp [hploc, g4]
        · rw [hdates]; simp [hploc, g5]
      · rw [List.mem_singleton] at hg
        subst hg
        have hc0 : ∀ b : Transaction → Bool,
            pre.countP (fun x => x.location = t.location && b x) = 0 :=
          fun b => List.countP_eq_zero.mpr fun x hx => by simp [hxl x hx]
        have hf0 : ∀ b : Transaction → Bool,
            pre.filter (fun x => x.location = t.location && b x) = [] :=
          fun b => List.filter_eq_nil_iff.mpr fun x hx => by simp [hxl x hx]
        have hf0' : pre.filter (fun x => x.location = t.location) = [] :=
          List.filter_eq_nil_iff.mpr fun x hx => by simp [hxl x hx]
        refine ⟨?_, ?_, ?_, ?_, ?_⟩
        · simp only [heloc]
          rw [hcount, hi0, hc0]
          by_cases ht : t.ttype = TxType.issue <;> simp [ht, hth, newFloor]
        · simp only [heloc]
          rw [hcount, hr0, hc0]
          by_cases ht : t.ttype = TxType.receive <;> simp [ht, hth, newFloor]
        · simp only [heloc]
          rw [hsum, hiq0, hf0]
          by_cases ht : t.ttype = TxType.issue <;> simp [ht, hth, newFloor]
        · simp only [heloc]
          rw [hsum, hrq0, hf0]
          by_cases ht : t.ttype = TxType.receive <;> simp [ht, hth, newFloor]
        · simp only [heloc]
          rw [hdates, hla0, hf0']
          simp [hth, newFloor, natMax]
    · rw [List.map_append, List.sum_append, hsi, hsum]
      have he1 : (List.map (fun x => x.issuedQty) [applyTx (newFloor t) t]).sum =
          (applyTx (newFloor t) t).issuedQty := by simp
      rw [he1, hiq0]
      by_cases ht : t.ttype = TxType.issue <;> simp [ht, newFloor]
    · rw [List.map_append, List.sum_append, hsr, hsum]
      have he1 : (List.map (fun x => x.receivedQty) [applyTx (newFloor t) t]).sum =
          (applyTx (newFloor t) t).receivedQty := by simp
      rw [he1, hrq0]
      by_cases ht : t.ttype = TxType.receive <;> simp [ht, newFloor]

/-- The whole fold establishes the aggregation invariant. -/
theorem floorFold_inv (fil : List Transaction) : FloorInv fil (floorFold fil) := by
  suffices h : ∀ (l pre : List Transaction) (m : List FloorAgg), FloorInv pre m →
      FloorInv (pre ++ l) (l.foldl (fun m t => floorStep t m) m) by
    have hbase : FloorInv [] [] := by
      refine ⟨rfl, ?_, rfl, rfl⟩
      intro f hf
      cases hf
    have := h fil [] [] hbase
    simpa [floorFold] using this
  intro l
  induction l with
  | nil =>
    intro pre m h
    simpa using h
  | cons t rest ih =>
    intro pre m h
    have h1 := floorInv_step pre m t h
    have h2 := ih (pre ++ [t]) (floorStep t m) h1
    rw [List.append_assoc] at h2
    simpa using h2

/-- The floor summary is a permutation of the floor map. -/
theorem floorSummary_perm (fil : List Transaction) :
    List.Perm (floorSummary fil) (floorFold fil) :=
  sortByDesc_perm floorTotal (floorFold fil)

/-- **C7.**  For every filtered transaction set: the entry sums of
`issuedQty` (resp. `receivedQty`) over the floor summary equal the total
quantity of Issue (resp. Receive) transactions in the filtered set, and
also the `stats` quantity totals; and each floor entry's `issuedQty`,
`receivedQty` and `lastActivity` are the per-location per-kind quantity
sums and the maximum date at that location. -/
theorem C7_aggregation_invariants (ts : List Transaction) (fp : Filters) :
    ((floorSummary (filteredTransactions ts fp)).map (·.issuedQty)).sum =
      (((filteredTransactions ts fp).filter (fun t => t.ttype = TxType.issue)).map
        (·.quantity)).sum ∧
    ((floorSummary (filteredTransactions ts fp)).map (·.issuedQty)).sum =
      (stats (filteredTransactions ts fp)).issuedQty ∧
    ((floorSummary (filteredTransactions ts fp)).map (·.receivedQty)).sum =
      (((filteredTransactions ts fp).filter (fun t => t.ttype = TxType.receive)).map
        (·.quantity)).sum ∧
    (∀ f ∈ floorSummary (filteredTransactions ts fp),
      f.issuedQty = (((filteredTransactions ts fp).filter (fun t =>
        t.location = f.location && t.ttype = TxType.issue)).map (·.quantity)).sum ∧
      f.receivedQty = (((filteredTransactions ts fp).filter (fun t =>
        t.location = f.location && t.ttype = TxType.receive)).map (·.quantity)).sum ∧
      f.lastActivity = natMax (((filteredTransactions ts fp).filter
        (fun t => t.location = f.location)).map (·.date))) := by
  obtain ⟨hkeys, hent, hsi, hsr⟩ := floorFold_inv (filteredTransactions ts fp)
  have hperm := floorSummary_perm (filteredTransactions ts fp)
  have hpi : ((floorSummary (filteredTransactions ts fp)).map (·.issuedQty)).sum =
      ((floorFold (filteredTransactions ts fp)).map (·.issuedQty)).sum :=
    (hperm.map (·.issuedQty)).sum_eq
  have hpr : ((floorSummary (filteredTransactions ts fp)).map (·.receivedQty)).sum =
      ((floorFold (filteredTransactions ts fp)).map (·.receivedQty)).sum :=
    (hperm.map (·.receivedQty)).sum_eq
  refine ⟨hpi.trans hsi, ?_, hpr.trans hsr, ?_⟩
  · rw [hpi.trans hsi, stats]
    rw [sumQ_eq_sum]
  · intro f hf
    obtain ⟨_, _, h3, h4, h5⟩ := hent f (hperm.mem_iff.mp hf)
    exact ⟨h3, h4, h5⟩

/-- **C7, witness.**  The per-entry invariants applied to the single
floor entry produced by one concrete issue transaction. -/
theorem C7_witness :
    (FloorAgg.mk "F1" 1 0 3 0 [("A", ItemAgg.mk 3 0 "kg" ["P"])] 5).issuedQty =
      (((filteredTransactions [Transaction.mk 1 5 TxType.issue "A" 3 "kg" "F1" "P" "" ""]
          (Filters.mk none none none none)).filter (fun t =>
        t.location = (FloorAgg.mk "F1" 1 0 3 0 [("A", ItemAgg.mk 3 0 "kg" ["P"])] 5).location &&
          t.ttype = TxType.issue)).map (·.quantity)).sum ∧
    (FloorAgg.mk "F1" 1 0 3 0 [("A", ItemAgg.mk 3 0 "kg" ["P"])] 5).lastActivity =
      natMax (((filteredTransactions [Transaction.mk 1 5 TxType.issue "A" 3 "kg" "F1" "P" "" ""]
          (Filters.mk none none none none)).filter (fun t =>
        t.location = (FloorAgg.mk "F1" 1 0 3 0 [("A", ItemAgg.mk 3 0 "kg" ["P"])] 5).location)).map
        (·.date)) := by
  have h := (C7_aggregation_invariants
    [Transaction.mk 1 5 TxType.issue "A" 3 "kg" "F1" "P" "" ""]
    (Filters.mk none none none none)).2.2.2
    (FloorAgg.mk "F1" 1 0 3 0 [("A", ItemAgg.mk 3 0 "kg" ["P"])] 5) (by decide)
  exact ⟨h.1, h.2.2⟩

/-- **C8.**  For every filtered transaction set, the floor summary has
exactly one entry per distinct location of the set, is sorted descending
by `issued + received` transaction count, and entries with equal totals
keep their first-encountered order from the aggregation pass (the
unsorted floor map). -/
theorem C8_floor_summary_order (ts : List Transaction) (fp : Filters) :
    ((floorSummary (filteredTransactions ts fp)).map (·.location)).Nodup ∧
    (∀ loc, loc ∈ (floorSummary (filteredTransactions ts fp)).map (·.location) ↔
      loc ∈ (filteredTransactions ts fp).map (·.location)) ∧
    (floorSummary (filteredTransactions ts fp)).Pairwise
      (fun a b => floorTotal b ≤ floorTotal a) ∧
    ((floorFold (filteredTransactions ts fp)).map (·.location) =
      seenOrder ((filteredTransactions ts fp).map (·.location))) ∧
    (∀ c, (floorSummary (filteredTransactions ts fp)).filter
        (fun f => decide (floorTotal f = c)) =
      (floorFold (filteredTransactions ts fp)).filter (fun f => decide (floorTotal f = c))) := by
  obtain ⟨hkeys, _, _, _⟩ := floorFold_inv (filteredTransactions ts fp)
  have hperm := floorSummary_perm (filteredTransactions ts fp)
  have hkperm := hperm.map (·.location)
  refine ⟨?_, ?_, sortByDesc_sorted floorTotal _, hkeys, ?_⟩
  · rw [hkperm.nodup_iff, hkeys]
    exact nodup_seenOrder _
  · intro loc
    rw [hkperm.mem_iff, hkeys, mem_seenOrder]
  · intro c
    exact filter_key_sortByDesc floorTotal c _

end SatyamMall
